import Mathlib

/-!
# DynamicArray and HashMap (lpiekarski/hash-map)

A shallow embedding of `src/dynamic_array.cpp` and `src/hash_map.cpp`.

* A `T const *` is a `Ptr α`: either `nullptr` or the address of an element.
  The containers report "absent" as `nullptr`.
* A storage block `new T const*[n]` is a list of `n` slots, every slot indeterminate
  until it is written.
* A computation that would dereference `nullptr`, index a block outside its bounds or
  read an indeterminate slot has no result (`none`); otherwise it returns `some` of
  its return value and of the state it leaves behind.
* `size_t` counters are natural numbers; the one subtraction that could wrap
  (`elements_num - 1`) wraps explicitly.
-/

namespace HashMapRepo

/-- A pointer `T const *`: `nullptr`, or a reference to an element. -/
inductive Ptr (α : Type) where
  | null : Ptr α
  | to (a : α) : Ptr α
deriving DecidableEq

/-- Dereferencing a pointer: undefined on `nullptr`. -/
def Ptr.deref {α : Type} : Ptr α → Option α
  | Ptr.null => none
  | Ptr.to a => some a

/-- The test `p == nullptr`. -/
def Ptr.isNull {α : Type} : Ptr α → Bool
  | Ptr.null => true
  | Ptr.to _ => false

/-- One slot of a block obtained from `new T const*[n]`. -/
inductive Slot (α : Type) where
  | indeterminate : Slot α
  | ref (p : Ptr α) : Slot α
deriving DecidableEq

/-- The member `T const ** arr`: `nullptr` or a block of slots. -/
abbrev Storage (α : Type) := Option (List (Slot α))

/-- The expression `new T const*[n]`. -/
def alloc {α : Type} (n : Nat) : Storage α :=
  some (List.replicate n Slot.indeterminate)

/-- The read `arr[i]`. -/
def load {α : Type} (arr : Storage α) (i : Nat) : Option (Ptr α) :=
  match arr with
  | none => none
  | some b =>
    match b[i]? with
    | some (Slot.ref p) => some p
    | _ => none

/-- The write `arr[i] = p`. -/
def store {α : Type} (arr : Storage α) (i : Nat) (p : Ptr α) : Option (Storage α) :=
  match arr with
  | none => none
  | some b => if i < b.length then some (some (b.set i (Slot.ref p))) else none

/-- The class `DynamicArray<T>` of `dynamic_array.h`. -/
structure DynamicArray (α : Type) where
  arr : Storage α
  sz : Nat
  arr_size : Nat
deriving DecidableEq

namespace DynamicArray

/-- The constant `DynamicArray::SIZE_UP_SCALE`. -/
def SIZE_UP_SCALE : Nat := 2

/-- The constant `DynamicArray::SIZE_DOWN_TRIGGER`. -/
def SIZE_DOWN_TRIGGER : Nat := 4

/-- The constant `DynamicArray::SIZE_DOWN_SCALE`. -/
def SIZE_DOWN_SCALE : Nat := 2

/-- The constructor `DynamicArray<T>::DynamicArray(void)`. -/
def new {α : Type} : DynamicArray α :=
  { arr := none, sz := 0, arr_size := 0 }

/-- The loop `for (i = ...; i < sz; i++) new_arr[i] = arr[i];` of `push_back` and
`remove`, with `n` iterations left and loop counter `i`. -/
def copy_loop {α : Type} (src : Storage α) : Nat → Nat → Storage α → Option (Storage α)
  | 0, _, dst => some dst
  | n + 1, i, dst =>
    match load src i with
    | none => none
    | some p =>
      match store dst i p with
      | none => none
      | some dst1 => copy_loop src n (i + 1) dst1

/-- The loop `for (i = idx + 1; i < sz; i++) arr[i - 1] = arr[i];` of `remove`, with
`n` iterations left and loop counter `i`. -/
def shift_loop {α : Type} : Nat → Nat → Storage α → Option (Storage α)
  | 0, _, a => some a
  | n + 1, i, a =>
    match load a i with
    | none => none
    | some p =>
      match store a (i - 1) p with
      | none => none
      | some a1 => shift_loop n (i + 1) a1

/-- The growth step of `push_back` (lines 18-32). -/
def grow {α : Type} (d : DynamicArray α) : Option (DynamicArray α) :=
  if d.sz + 1 > d.arr_size then
    if d.arr_size = 0 then
      some { d with arr := alloc SIZE_UP_SCALE, arr_size := SIZE_UP_SCALE }
    else
      match copy_loop d.arr d.sz 0 (alloc (SIZE_UP_SCALE * d.arr_size)) with
      | none => none
      | some new_arr => some { d with arr := new_arr, arr_size := SIZE_UP_SCALE * d.arr_size }
  else some d

/-- The method `DynamicArray<T>::push_back`. -/
def push_back {α : Type} (d : DynamicArray α) (el : Ptr α) : Option (DynamicArray α) :=
  match grow d with
  | none => none
  | some d1 =>
    match store d1.arr d1.sz el with
    | none => none
    | some a => some { d1 with arr := a, sz := d1.sz + 1 }

/-- The shrink step of `remove` (lines 42-57). It runs after the guard `idx >= sz` has
failed, so `sz - 1` does not wrap. -/
def shrink {α : Type} (d : DynamicArray α) : Option (DynamicArray α) :=
  if SIZE_DOWN_TRIGGER * (d.sz - 1) < d.arr_size then
    if d.arr_size / SIZE_DOWN_SCALE ≠ 0 then
      match copy_loop d.arr d.sz 0 (alloc (d.arr_size / SIZE_DOWN_SCALE)) with
      | none => none
      | some new_arr => some { d with arr := new_arr, arr_size := d.arr_size / SIZE_DOWN_SCALE }
    else
      some { d with arr := none, arr_size := d.arr_size / SIZE_DOWN_SCALE }
  else some d

/-- The method `DynamicArray<T>::remove`: the returned pointer and the state left. -/
def remove {α : Type} (d : DynamicArray α) (idx : Nat) : Option (Ptr α × DynamicArray α) :=
  if idx ≥ d.sz then some (Ptr.null, d)
  else
    match load d.arr idx with
    | none => none
    | some res =>
      match shrink d with
      | none => none
      | some d1 =>
        match shift_loop (d1.sz - (idx + 1)) (idx + 1) d1.arr with
        | none => none
        | some a => some (res, { d1 with arr := a, sz := d1.sz - 1 })

/-- The method `DynamicArray<T>::operator[]`. -/
def index {α : Type} (d : DynamicArray α) (idx : Nat) : Option (Ptr α) :=
  if idx ≥ d.sz then some Ptr.null else load d.arr idx

/-- The method `DynamicArray<T>::set`, called on an object (`this` is not null). -/
def set {α : Type} (d : DynamicArray α) (idx : Nat) (val : Ptr α) : Option (DynamicArray α) :=
  if idx ≥ d.sz then some d
  else
    match store d.arr idx val with
    | none => none
    | some a => some { d with arr := a }

/-- The method `DynamicArray<T>::size`. -/
def size {α : Type} (d : DynamicArray α) : Nat := d.sz

/-- A sequence of `push_back` calls, one per element of `rs`, in order. -/
def push_all {α : Type} : List (Ptr α) → DynamicArray α → Option (DynamicArray α)
  | [], d => some d
  | r :: rs, d =>
    match push_back d r with
    | none => none
    | some d1 => push_all rs d1

/-- The states a `DynamicArray` reaches from the constructor by `push_back`, `remove`
and `set`. -/
inductive Reachable {α : Type} : DynamicArray α → Prop where
  | new : Reachable DynamicArray.new
  | push_back (d d1 : DynamicArray α) (el : Ptr α) :
      Reachable d → push_back d el = some d1 → Reachable d1
  | remove (d d1 : DynamicArray α) (idx : Nat) (res : Ptr α) :
      Reachable d → remove d idx = some (res, d1) → Reachable d1
  | set (d d1 : DynamicArray α) (idx : Nat) (val : Ptr α) :
      Reachable d → set d idx val = some d1 → Reachable d1

/-- The array `d` holds exactly the references `l`, in order, in the first slots of a
block of `arr_size` slots (no block at all only when `arr_size` is 0). -/
def Rep {α : Type} (d : DynamicArray α) (l : List (Ptr α)) : Prop :=
  d.sz = l.length ∧ l.length ≤ d.arr_size ∧
  match d.arr with
  | none => d.arr_size = 0
  | some b => b.length = d.arr_size ∧ ∀ i, i < l.length → b[i]? = some (Slot.ref ((l[i]?).getD Ptr.null))

end DynamicArray

/-- A method call `(*this)[idx]->m(...)` that mutates the object which slot `idx` points
at: the array still points at that object, which is now in state `b`. -/
def DynamicArray.update_pointee {β : Type} (d : DynamicArray β) (idx : Nat) (b : β) :
    DynamicArray β :=
  { d with arr := match d.arr with
                  | none => none
                  | some blk => some (blk.set idx (Slot.ref (Ptr.to b))) }

/-- The object `*(*arr)[i]` of an array of arrays: undefined when `(*arr)[i]` is
`nullptr`. Throughout `hash_map.cpp`, `keys[i]` on the pointer `keys` is read as the
`i`-th element of the array `keys` points at. -/
def bucket_at {α : Type} (arr : DynamicArray (DynamicArray α)) (i : Nat) :
    Option (DynamicArray α) :=
  match arr.index i with
  | none => none
  | some p => p.deref

/-- The class `HashMap<T_key, T_value>` of `hash_map.h`, with `T_key = T_value`
(line 27 of `hash_map.cpp` passes a value pointer where a key pointer is expected, so
both are the same type). The member `size` is the one the constructor and `remove` use.
The members `hash_func` and `key_cmp` are written by the constructor only; they are
parameters of the operations. -/
structure HashMap (α : Type) where
  keys : DynamicArray (DynamicArray α)
  values : DynamicArray (DynamicArray α)
  elements_num : Nat
  size : Nat
deriving DecidableEq

namespace HashMap

/-- The constant `HashMap::DEFAULT_SIZE`. -/
def DEFAULT_SIZE : Nat := 1

/-- The constant `HashMap::SIZE_UP_SCALE`. -/
def SIZE_UP_SCALE : Nat := 2

/-- The constant `HashMap::SIZE_DOWN_TRIGGER`. -/
def SIZE_DOWN_TRIGGER : Nat := 4

/-- The constant `HashMap::SIZE_DOWN_SCALE`. -/
def SIZE_DOWN_SCALE : Nat := 2

/-- The `size_t` value of `n - 1`: it wraps at zero. -/
def size_t_dec (n : Nat) : Nat := if n = 0 then 2 ^ 64 - 1 else n - 1

/-- The loop `for (i = 0; i < n; i++) { keys->push_back(new DynamicArray);
values->push_back(new DynamicArray); }` of the constructor and of both rehashes. -/
def init_loop {α : Type} : Nat → DynamicArray (DynamicArray α) → DynamicArray (DynamicArray α) →
    Option (DynamicArray (DynamicArray α) × DynamicArray (DynamicArray α))
  | 0, ks, vs => some (ks, vs)
  | n + 1, ks, vs =>
    match ks.push_back (Ptr.to DynamicArray.new) with
    | none => none
    | some ks1 =>
      match vs.push_back (Ptr.to DynamicArray.new) with
      | none => none
      | some vs1 => init_loop n ks1 vs1

/-- The constructor `HashMap<T_key, T_value>::HashMap`. -/
def new {α : Type} : Option (HashMap α) :=
  match init_loop DEFAULT_SIZE DynamicArray.new DynamicArray.new with
  | none => none
  | some (ks, vs) => some { keys := ks, values := vs, elements_num := 0, size := DEFAULT_SIZE }

section ops

variable {α : Type} (key_cmp : Ptr α → Ptr α → Int) (hash_func : Ptr α → Nat → Nat)

/-- The search loop of `add_binding` (lines 25-29) over the key chain `kb`, with `n`
iterations left and loop counter `i`: the index of the first key with
`key_cmp(key, kb[i]) == 0`, if any. -/
def add_binding_loop (key : Ptr α) (kb : DynamicArray α) : Nat → Nat → Option (Option Nat)
  | 0, _ => some none
  | n + 1, i =>
    match kb.index i with
    | none => none
    | some p => if key_cmp key p = 0 then some (some i) else add_binding_loop key kb n (i + 1)

/-- The function `add_binding`: the returned flag, then `values` and `keys` as it
leaves them. On a match it calls `keys[key_hash]->set(i, value)` (line 27). -/
def add_binding (values keys : DynamicArray (DynamicArray α)) (key value : Ptr α) :
    Option (Bool × DynamicArray (DynamicArray α) × DynamicArray (DynamicArray α)) :=
  match bucket_at keys (hash_func key keys.size) with
  | none => none
  | some kb =>
    match add_binding_loop key_cmp key kb kb.size 0 with
    | none => none
    | some (some i) =>
      match kb.set i value with
      | none => none
      | some kb1 => some (false, values, keys.update_pointee (hash_func key keys.size) kb1)
    | some none =>
      match kb.push_back key with
      | none => none
      | some kb1 =>
        match bucket_at values (hash_func key keys.size) with
        | none => none
        | some vb =>
          match vb.push_back value with
          | none => none
          | some vb1 =>
            some (true, values.update_pointee (hash_func key keys.size) vb1,
                  keys.update_pointee (hash_func key keys.size) kb1)

/-- The loop of `operator[]` (lines 131-133) over the key chain `kb` of bucket
`key_hash`, with `n` iterations left and loop counter `i`. -/
def lookup_loop (values : DynamicArray (DynamicArray α)) (key_hash : Nat) (key : Ptr α)
    (kb : DynamicArray α) : Nat → Nat → Option (Ptr α)
  | 0, _ => some Ptr.null
  | n + 1, i =>
    match kb.index i with
    | none => none
    | some p =>
      if key_cmp p key = 0 then
        match bucket_at values key_hash with
        | none => none
        | some vb => vb.index i
      else lookup_loop values key_hash key kb n (i + 1)

/-- The method `HashMap::operator[]`. -/
def lookup (h : HashMap α) (key : Ptr α) : Option (Ptr α) :=
  match bucket_at h.keys (hash_func key h.keys.size) with
  | none => none
  | some kb => lookup_loop key_cmp h.values (hash_func key h.keys.size) key kb kb.size 0

/-- The inner loop of the grow rehash (lines 63-64) over bucket `i` of `h`, with `n`
iterations left and loop counter `j`; the state is `(new_values, new_keys)`. -/
def grow_inner (h : HashMap α) (i : Nat) (kb : DynamicArray α) :
    Nat → Nat → DynamicArray (DynamicArray α) × DynamicArray (DynamicArray α) →
    Option (DynamicArray (DynamicArray α) × DynamicArray (DynamicArray α))
  | 0, _, s => some s
  | n + 1, j, s =>
    match kb.index j with
    | none => none
    | some k =>
      match bucket_at h.values i with
      | none => none
      | some vb =>
        match vb.index j with
        | none => none
        | some v =>
          match add_binding key_cmp hash_func s.1 s.2 k v with
          | none => none
          | some r => grow_inner h i kb n (j + 1) (r.2.1, r.2.2)

/-- The outer loop of the grow rehash (lines 62-67), with `n` iterations left and loop
counter `i`; the state is `(new_values, new_keys)`. -/
def grow_outer (h : HashMap α) :
    Nat → Nat → DynamicArray (DynamicArray α) × DynamicArray (DynamicArray α) →
    Option (DynamicArray (DynamicArray α) × DynamicArray (DynamicArray α))
  | 0, _, s => some s
  | n + 1, i, s =>
    match bucket_at h.keys i with
    | none => none
    | some kb =>
      match grow_inner key_cmp hash_func h i kb kb.size 0 s with
      | none => none
      | some s1 => grow_outer h n (i + 1) s1

/-- The grow rehash of `add` (lines 54-71). -/
def rehash_grow (h : HashMap α) : Option (HashMap α) :=
  match init_loop (h.keys.size * SIZE_UP_SCALE) DynamicArray.new DynamicArray.new with
  | none => none
  | some (new_keys, new_values) =>
    match grow_outer key_cmp hash_func h h.keys.size 0 (new_values, new_keys) with
    | none => none
    | some s => some { h with keys := s.2, values := s.1 }

/-- The condition of line 53; `this[key]` is the lookup `(*this)[key]` and is evaluated
only when the first conjunct holds. -/
def grow_cond (h : HashMap α) (key : Ptr α) : Option Bool :=
  if h.elements_num + 1 > h.keys.size * SIZE_UP_SCALE then
    match lookup key_cmp hash_func h key with
    | none => none
    | some v => some v.isNull
  else some false

/-- The method `HashMap::add`: the returned flag and the state left. -/
def add (h : HashMap α) (key value : Ptr α) : Option (Bool × HashMap α) :=
  match grow_cond key_cmp hash_func h key with
  | none => none
  | some g =>
    match (if g then rehash_grow key_cmp hash_func h else some h) with
    | none => none
    | some h1 =>
      match add_binding key_cmp hash_func h1.values h1.keys key value with
      | none => none
      | some r =>
        some (r.1, { h1 with keys := r.2.2, values := r.2.1,
                             elements_num := if r.1 then h1.elements_num + 1
                                             else h1.elements_num })

/-- The inner loop of the shrink rehash (lines 93-97) over bucket `i` of `h`, with `n`
iterations left and loop counter `j`; the state is `(res, new_values, new_keys)`. -/
def shrink_inner (h : HashMap α) (key : Ptr α) (i : Nat) (kb : DynamicArray α) :
    Nat → Nat → Ptr α × DynamicArray (DynamicArray α) × DynamicArray (DynamicArray α) →
    Option (Ptr α × DynamicArray (DynamicArray α) × DynamicArray (DynamicArray α))
  | 0, _, s => some s
  | n + 1, j, s =>
    match kb.index j with
    | none => none
    | some k =>
      if key_cmp k key ≠ 0 then
        match bucket_at h.values i with
        | none => none
        | some vb =>
          match vb.index j with
          | none => none
          | some v =>
            match add_binding key_cmp hash_func s.2.1 s.2.2 k v with
            | none => none
            | some r => shrink_inner h key i kb n (j + 1) (s.1, r.2.1, r.2.2)
      else shrink_inner h key i kb n (j + 1) (k, s.2.1, s.2.2)

/-- The outer loop of the shrink rehash (lines 92-100), with `n` iterations left and
loop counter `i`. -/
def shrink_outer (h : HashMap α) (key : Ptr α) :
    Nat → Nat → Ptr α × DynamicArray (DynamicArray α) × DynamicArray (DynamicArray α) →
    Option (Ptr α × DynamicArray (DynamicArray α) × DynamicArray (DynamicArray α))
  | 0, _, s => some s
  | n + 1, i, s =>
    match bucket_at h.keys i with
    | none => none
    | some kb =>
      match shrink_inner key_cmp hash_func h key i kb kb.size 0 s with
      | none => none
      | some s1 => shrink_outer h key n (i + 1) s1

/-- The loop of the single-bucket rebuild (lines 111-119) over the key chain `kb` and
bucket `key_hash` of `values`, with `n` iterations left and loop counter `j`; the state
is `(res, new_keys, new_values)`. -/
def rebuild_loop (values : DynamicArray (DynamicArray α)) (key_hash : Nat) (key : Ptr α)
    (kb : DynamicArray α) :
    Nat → Nat → Ptr α × DynamicArray α × DynamicArray α →
    Option (Ptr α × DynamicArray α × DynamicArray α)
  | 0, _, s => some s
  | n + 1, j, s =>
    match kb.index j with
    | none => none
    | some k =>
      if key_cmp k key ≠ 0 then
        match s.2.1.push_back k with
        | none => none
        | some nk =>
          match bucket_at values key_hash with
          | none => none
          | some vb =>
            match vb.index j with
            | none => none
            | some v =>
              match s.2.2.push_back v with
              | none => none
              | some nv => rebuild_loop values key_hash key kb n (j + 1) (s.1, nk, nv)
      else rebuild_loop values key_hash key kb n (j + 1) (k, s.2.1, s.2.2)

/-- The shrink rehash of `remove` (lines 85-106). -/
def remove_shrink (h : HashMap α) (key : Ptr α) : Option (Ptr α × HashMap α) :=
  match init_loop (h.keys.size / SIZE_DOWN_SCALE) DynamicArray.new DynamicArray.new with
  | none => none
  | some (new_keys, new_values) =>
    match shrink_outer key_cmp hash_func h key h.keys.size 0 (Ptr.null, new_values, new_keys) with
    | none => none
    | some s =>
      some (s.1, { h with keys := s.2.2, values := s.2.1,
                          elements_num := size_t_dec h.elements_num })

/-- The single-bucket rebuild of `remove` (lines 108-125); the assignments of lines
122-123 go through `set`. -/
def remove_rebuild (h : HashMap α) (key : Ptr α) : Option (Ptr α × HashMap α) :=
  match bucket_at h.keys (hash_func key h.keys.size) with
  | none => none
  | some kb =>
    match rebuild_loop key_cmp h.values (hash_func key h.keys.size) key kb kb.size 0
        (Ptr.null, DynamicArray.new, DynamicArray.new) with
    | none => none
    | some s =>
      match h.keys.set (hash_func key h.keys.size) (Ptr.to s.2.1) with
      | none => none
      | some ks =>
        match h.values.set (hash_func key h.keys.size) (Ptr.to s.2.2) with
        | none => none
        | some vs =>
          some (s.1, { h with keys := ks, values := vs,
                              elements_num := size_t_dec h.elements_num })

/-- The method `HashMap::remove`: the returned pointer and the state left. The guard
`this[key]` of line 81 is the lookup `(*this)[key]`; the test of line 84 reads the
member `size`, in `size_t` arithmetic. -/
def remove (h : HashMap α) (key : Ptr α) : Option (Ptr α × HashMap α) :=
  match lookup key_cmp hash_func h key with
  | none => none
  | some v =>
    if v.isNull then some (Ptr.null, h)
    else if (size_t_dec h.elements_num * SIZE_DOWN_TRIGGER) % 2 ^ 64 < h.size ∧ h.size > 1 then
      remove_shrink key_cmp hash_func h key
    else remove_rebuild key_cmp hash_func h key

/-- The inner loop of `get_keys` (lines 141-142) over the key chain `kb`. -/
def get_keys_inner (kb : DynamicArray α) : Nat → Nat → DynamicArray α → Option (DynamicArray α)
  | 0, _, res => some res
  | n + 1, j, res =>
    match kb.index j with
    | none => none
    | some k =>
      match res.push_back k with
      | none => none
      | some res1 => get_keys_inner kb n (j + 1) res1

/-- The outer loop of `get_keys` (lines 140-142). -/
def get_keys_outer (h : HashMap α) : Nat → Nat → DynamicArray α → Option (DynamicArray α)
  | 0, _, res => some res
  | n + 1, i, res =>
    match bucket_at h.keys i with
    | none => none
    | some kb =>
      match get_keys_inner kb kb.size 0 res with
      | none => none
      | some res1 => get_keys_outer h n (i + 1) res1

/-- The method `HashMap::get_keys`. -/
def get_keys (h : HashMap α) : Option (DynamicArray α) :=
  get_keys_outer h h.keys.size 0 DynamicArray.new

/-- The states a `HashMap` reaches from the constructor by `add` and `remove`. -/
inductive Reachable : HashMap α → Prop where
  | new (h : HashMap α) : HashMap.new = some h → Reachable h
  | add (h h1 : HashMap α) (key value : Ptr α) ( added : Bool) :
      Reachable h → add key_cmp hash_func h key value = some (added, h1) → Reachable h1
  | remove (h h1 : HashMap α) (key res : Ptr α) :
      Reachable h → remove key_cmp hash_func h key = some (res, h1) → Reachable h1

end ops

end HashMap

/-- The array of arrays `arr` holds `n` pointers to buckets, none of them null, each
bucket a well-formed array. -/
def Buckets {α : Type} (arr : DynamicArray (DynamicArray α)) (n : Nat) : Prop :=
  ∃ bs : List (DynamicArray α), DynamicArray.Rep arr (bs.map Ptr.to) ∧ bs.length = n ∧
    ∀ b, b ∈ bs → ∃ l, DynamicArray.Rep b l

/-- The structure every reachable `HashMap` has: `keys` and `values` hold the same
positive number of well-formed buckets, and the member `size` still has the value the
constructor gave it. -/
def HashMap.WF {α : Type} (h : HashMap α) : Prop :=
  ∃ n, 0 < n ∧ Buckets h.keys n ∧ Buckets h.values n ∧ h.size = HashMap.DEFAULT_SIZE

/-- A key comparator on references to natural numbers: 0 exactly on equal references. -/
def cmp_nat (a b : Ptr Nat) : Int := if a = b then 0 else 1

/-- A hash function on references to natural numbers: the number modulo the bucket
count. -/
def hash_nat (k : Ptr Nat) (n : Nat) : Nat :=
  match k with
  | Ptr.null => 0
  | Ptr.to a => a % n

/-- One call on a `HashMap` of natural numbers. -/
inductive Call where
  | add (k v : Nat) : Call
  | remove (k : Nat) : Call

/-- The calls of `cs` in order on `h`, with `cmp_nat` and `hash_nat`; return values are
dropped. -/
def run_calls : List Call → HashMap Nat → Option (HashMap Nat)
  | [], h => some h
  | Call.add k v :: cs, h =>
    match HashMap.add cmp_nat hash_nat h (Ptr.to k) (Ptr.to v) with
    | none => none
    | some r => run_calls cs r.2
  | Call.remove k :: cs, h =>
    match HashMap.remove cmp_nat hash_nat h (Ptr.to k) with
    | none => none
    | some r => run_calls cs r.2

/-- The calls of `cs` in order on a freshly constructed `HashMap`. -/
def run_fresh (cs : List Call) : Option (HashMap Nat) :=
  match (HashMap.new : Option (HashMap Nat)) with
  | none => none
  | some h => run_calls cs h

/-- The references `d[0]`, ..., `d[size() - 1]`, read with `operator[]`. -/
def DynamicArray.contents {α : Type} (d : DynamicArray α) : List (Option (Ptr α)) :=
  (List.range d.size).map d.index

/-- The chains of all buckets of `arr`, in bucket order, read with `operator[]`. -/
def chains {α : Type} (arr : DynamicArray (DynamicArray α)) :
    List (Option (List (Option (Ptr α)))) :=
  (List.range arr.size).map fun i => (bucket_at arr i).map DynamicArray.contents

/-- The lookup `operator[]` of the key `k` on the map the calls `cs` build from a fresh
one. -/
def lookup_after (cs : List Call) (k : Nat) : Option (Ptr Nat) :=
  match run_fresh cs with
  | none => none
  | some h => HashMap.lookup cmp_nat hash_nat h (Ptr.to k)

/-- The array after `push_back` of references to 7, 8 and 9 on an empty array. -/
def array_7_8_9 : DynamicArray Nat :=
  { arr := some [Slot.ref (Ptr.to 7), Slot.ref (Ptr.to 8), Slot.ref (Ptr.to 9),
                 Slot.indeterminate],
    sz := 3, arr_size := 4 }

/-- A bucket chain holding the single reference `a`. -/
def chain_of (a : Nat) : DynamicArray Nat :=
  { arr := some [Slot.ref (Ptr.to a), Slot.indeterminate], sz := 1, arr_size := 2 }

/-- The map after `add(2, 20)` on a fresh map. -/
def map_2_20 : HashMap Nat :=
  { keys := { arr := some [Slot.ref (Ptr.to (chain_of 2)), Slot.indeterminate],
              sz := 1, arr_size := 2 },
    values := { arr := some [Slot.ref (Ptr.to (chain_of 20)), Slot.indeterminate],
                sz := 1, arr_size := 2 },
    elements_num := 1, size := 1 }

/-- A key comparator on references to strings, in the manner of `strcmp`: 0 exactly on
equal strings. -/
def cmp_str (a b : Ptr String) : Int := if a = b then 0 else 1

/-- The hash function `hash(k, n) = k[0] mod n` on references to strings. -/
def hash_str (k : Ptr String) (n : Nat) : Nat :=
  match k with
  | Ptr.null => 0
  | Ptr.to s => (s.get 0).toNat % n

/-- The calls `add(k, v)` for the pairs `(k, v)` of `kvs`, in order, on `h`; return
values are dropped. -/
def add_all {α : Type} (key_cmp : Ptr α → Ptr α → Int) (hash_func : Ptr α → Nat → Nat) :
    List (α × α) → HashMap α → Option (HashMap α)
  | [], h => some h
  | kv :: kvs, h =>
    match HashMap.add key_cmp hash_func h (Ptr.to kv.1) (Ptr.to kv.2) with
    | none => none
    | some r => add_all key_cmp hash_func kvs r.2

/-- The calls `add(k, v)` for the pairs `(k, v)` of `kvs`, in order, on a freshly
constructed map of strings, with `cmp_str` and `hash_str`. -/
def fresh_add_all (kvs : List (String × String)) : Option (HashMap String) :=
  match (HashMap.new : Option (HashMap String)) with
  | none => none
  | some h => add_all cmp_str hash_str kvs h

/-- The lookup `operator[]` of the key `k` on the map `fresh_add_all kvs`. -/
def lookup_str (kvs : List (String × String)) (k : String) : Option (Ptr String) :=
  match fresh_add_all kvs with
  | none => none
  | some h => HashMap.lookup cmp_str hash_str h (Ptr.to k)

/-- A well-formed array state: the length is at most the capacity, the storage is a
block of `arr_size` slots (none at all only when `arr_size` is 0) and the first `sz`
slots have been written. -/
def DynamicArray.WellFormed {α : Type} (d : DynamicArray α) : Prop :=
  ∃ l, DynamicArray.Rep d l

/-- The array after `push_back(7)`, `remove(0)`, `push_back(8)` on an empty array: one
element in a block of one slot. -/
def array_cap_1 : DynamicArray Nat :=
  { arr := some [Slot.ref (Ptr.to 8)], sz := 1, arr_size := 1 }

/-- The association-list model of a finite map: `add` overwrites the value of an equal
key or, when there is none, inserts the binding. -/
def assoc_add (k v : Nat) : List (Nat × Nat) → List (Nat × Nat)
  | [] => [(k, v)]
  | kv :: m => if kv.1 = k then (kv.1, v) :: m else kv :: assoc_add k v m

/-- The association-list model of a finite map: `remove` deletes the binding of the key. -/
def assoc_remove (k : Nat) (m : List (Nat × Nat)) : List (Nat × Nat) :=
  m.filter fun kv => kv.1 ≠ k

/-- The association-list model of a finite map: `lookup` returns the value bound to the
key, or absent. -/
def assoc_lookup (k : Nat) : List (Nat × Nat) → Ptr Nat
  | [] => Ptr.null
  | kv :: m => if kv.1 = k then Ptr.to kv.2 else assoc_lookup k m

/-- The calls of `cs` replayed in order on the association-list model `m`. -/
def assoc_run : List Call → List (Nat × Nat) → List (Nat × Nat)
  | [], m => m
  | Call.add k v :: cs, m => assoc_run cs (assoc_add k v m)
  | Call.remove k :: cs, m => assoc_run cs (assoc_remove k m)

/-! ## Theorems -/

section dynamic_array_lemmas

variable {α : Type}

theorem load_block (b : List (Slot α)) (i : Nat) (p : Ptr α)
    (h : b[i]? = some (Slot.ref p)) : load (some b) i = some p := by
  simp [load, h]

theorem store_block (b : List (Slot α)) (i : Nat) (p : Ptr α) (h : i < b.length) :
    store (some b) i p = some (some (b.set i (Slot.ref p))) := by
  simp [store, h]

theorem copy_loop_spec (sb : List (Slot α)) (f : Nat → Ptr α) (m : Nat)
    (hsrc : ∀ j, j < m → sb[j]? = some (Slot.ref (f j))) :
    ∀ (n i : Nat) (db : List (Slot α)), i + n = m → m ≤ db.length →
      (∀ j, j < i → db[j]? = some (Slot.ref (f j))) →
      ∃ db1, DynamicArray.copy_loop (some sb) n i (some db) = some (some db1) ∧
        db1.length = db.length ∧ ∀ j, j < m → db1[j]? = some (Slot.ref (f j)) := by
  intro n
  induction n with
  | zero =>
    intro i db hi _ hdb
    refine ⟨db, rfl, rfl, ?_⟩
    intro j hj
    exact hdb j (by omega)
  | succ n ih =>
    intro i db hi hlen hdb
    have him : i < m := by omega
    have hstep : DynamicArray.copy_loop (some sb) (n + 1) i (some db)
        = DynamicArray.copy_loop (some sb) n (i + 1) (some (db.set i (Slot.ref (f i)))) := by
      simp [DynamicArray.copy_loop, load_block sb i (f i) (hsrc i him),
        store_block db i (f i) (by omega)]
    obtain ⟨db1, h1, h2, h3⟩ := ih (i + 1) (db.set i (Slot.ref (f i))) (by omega)
      (by simpa using hlen) (by
        intro j hj
        by_cases hji : j = i
        · subst hji
          simp [List.getElem?_set, show j < db.length by omega]
        · rw [List.getElem?_set_ne (Ne.symm hji)]
          exact hdb j (by omega))
    refine ⟨db1, by rw [hstep, h1], by simpa using h2, h3⟩

/-- The contents after the shift loop has reached counter `i`. -/
theorem shift_loop_spec (f : Nat → Ptr α) (m idx : Nat) :
    ∀ (n i : Nat) (b : List (Slot α)), i + n = m → idx + 1 ≤ i → m ≤ b.length →
      (∀ j, j < m → b[j]? = some (Slot.ref
          (if j < idx then f j else if j + 1 < i then f (j + 1) else f j))) →
      ∃ b1, DynamicArray.shift_loop n i (some b) = some (some b1) ∧
        b1.length = b.length ∧
        (∀ j, j < m → b1[j]? = some (Slot.ref
          (if j < idx then f j else if j + 1 < m then f (j + 1) else f j))) := by
  intro n
  induction n with
  | zero =>
    intro i b hi _ _ hb
    have : i = m := by omega
    subst this
    exact ⟨b, rfl, rfl, hb⟩
  | succ n ih =>
    intro i b hi hidx hlen hb
    have him : i < m := by omega
    have hload : b[i]? = some (Slot.ref (f i)) := by
      have := hb i him
      rw [this]
      simp [show ¬ i < idx by omega]
    have hstep : DynamicArray.shift_loop (n + 1) i (some b)
        = DynamicArray.shift_loop n (i + 1) (some (b.set (i - 1) (Slot.ref (f i)))) := by
      simp [DynamicArray.shift_loop, load_block b i (f i) hload,
        store_block b (i - 1) (f i) (by omega)]
    obtain ⟨b1, h1, h2, h3⟩ := ih (i + 1) (b.set (i - 1) (Slot.ref (f i))) (by omega)
      (by omega) (by simpa using hlen) (by
        intro j hj
        by_cases hji : j = i - 1
        · subst hji
          simp [List.getElem?_set, show i - 1 < b.length by omega,
            show ¬ i - 1 < idx by omega, show i - 1 + 1 = i by omega]
        · rw [List.getElem?_set_ne (Ne.symm hji), hb j hj]
          by_cases h1 : j < idx
          · simp [h1]
          · have e1 : (j + 1 < i) ↔ (j + 1 < i + 1) := by omega
            simp [h1, e1])
    exact ⟨b1, by rw [hstep, h1], by simpa using h2, h3⟩

end dynamic_array_lemmas

section rep_lemmas

variable {α : Type}

theorem rep_new : DynamicArray.Rep (DynamicArray.new : DynamicArray α) [] := by
  simp [DynamicArray.Rep, DynamicArray.new]

theorem rep_size (d : DynamicArray α) (l : List (Ptr α)) (h : DynamicArray.Rep d l) :
    d.size = l.length := h.1

theorem rep_index (d : DynamicArray α) (l : List (Ptr α)) (h : DynamicArray.Rep d l)
    (i : Nat) : d.index i = some ((l[i]?).getD Ptr.null) := by
  obtain ⟨hsz, hcap, harr⟩ := h
  unfold DynamicArray.index
  by_cases hi : i ≥ d.sz
  · have : l[i]? = none := by
      rw [List.getElem?_eq_none_iff]; omega
    simp [hi, this]
  · rw [if_neg hi]
    cases hb : d.arr with
    | none =>
      rw [hb] at harr
      simp at harr
      omega
    | some b =>
      rw [hb] at harr
      exact load_block b i _ (harr.2 i (by omega))

theorem rep_grow (d : DynamicArray α) (l : List (Ptr α)) (h : DynamicArray.Rep d l) :
    ∃ b cap, DynamicArray.grow d = some { arr := some b, sz := d.sz, arr_size := cap } ∧
      b.length = cap ∧ l.length < cap ∧
      ∀ i, i < l.length → b[i]? = some (Slot.ref ((l[i]?).getD Ptr.null)) := by
  obtain ⟨hsz, hcap, harr⟩ := h
  unfold DynamicArray.grow
  by_cases hg : d.sz + 1 > d.arr_size
  · rw [if_pos hg]
    by_cases h0 : d.arr_size = 0
    · rw [if_pos h0]
      refine ⟨List.replicate 2 Slot.indeterminate, 2, rfl, by simp, by omega, ?_⟩
      intro i hi
      omega
    · rw [if_neg h0]
      cases hb : d.arr with
      | none =>
        rw [hb] at harr
        exact absurd harr h0
      | some b =>
        rw [hb] at harr
        obtain ⟨db1, h1, h2, h3⟩ := copy_loop_spec b (fun j => (l[j]?).getD Ptr.null)
          l.length harr.2 d.sz 0
          (List.replicate (DynamicArray.SIZE_UP_SCALE * d.arr_size) Slot.indeterminate)
          (by omega) (by simp [DynamicArray.SIZE_UP_SCALE]; omega) (by intro j hj; omega)
        refine ⟨db1, DynamicArray.SIZE_UP_SCALE * d.arr_size, ?_, ?_, ?_, h3⟩
        · simp only [alloc]
          rw [h1]
        · simpa using h2
        · simp [DynamicArray.SIZE_UP_SCALE]; omega
  · rw [if_neg hg]
    cases hb : d.arr with
    | none =>
      rw [hb] at harr
      simp at harr
      omega
    | some b =>
      rw [hb] at harr
      refine ⟨b, d.arr_size, ?_, harr.1, by omega, harr.2⟩
      cases d
      simp_all

theorem rep_push_back (d : DynamicArray α) (l : List (Ptr α)) (h : DynamicArray.Rep d l)
    (el : Ptr α) :
    ∃ d1, DynamicArray.push_back d el = some d1 ∧ DynamicArray.Rep d1 (l ++ [el]) := by
  obtain ⟨b, cap, hg, hlen, hlt, hag⟩ := rep_grow d l h
  have hsz : d.sz = l.length := h.1
  refine ⟨{ arr := some (b.set d.sz (Slot.ref el)), sz := d.sz + 1, arr_size := cap }, ?_, ?_⟩
  · unfold DynamicArray.push_back
    rw [hg]
    simp [store, show d.sz < b.length by omega]
  · refine ⟨by simp [hsz], by simp; omega, ?_⟩
    refine ⟨by simpa using hlen, ?_⟩
    intro i hi
    simp only [List.length_append, List.length_singleton] at hi
    by_cases hil : i = l.length
    · subst hil
      simp [hsz, List.getElem?_set, show l.length < b.length by omega]
    · rw [List.getElem?_set_ne (by omega), hag i (by omega),
        List.getElem?_append_left (by omega)]

theorem rep_set (d : DynamicArray α) (l : List (Ptr α)) (h : DynamicArray.Rep d l)
    (idx : Nat) (val : Ptr α) :
    ∃ d1, DynamicArray.set d idx val = some d1 ∧ DynamicArray.Rep d1 (l.set idx val) := by
  obtain ⟨hsz, hcap, harr⟩ := h
  unfold DynamicArray.set
  by_cases hi : idx ≥ d.sz
  · rw [if_pos hi]
    refine ⟨d, rfl, ?_⟩
    have : l.set idx val = l := by
      apply List.set_eq_of_length_le; omega
    rw [this]
    exact ⟨hsz, hcap, harr⟩
  · rw [if_neg hi]
    cases hb : d.arr with
    | none =>
      rw [hb] at harr
      simp at harr
      omega
    | some b =>
      rw [hb] at harr
      refine ⟨{ d with arr := some (b.set idx (Slot.ref val)) }, ?_, ?_⟩
      · simp [store, show idx < b.length by omega]
      · refine ⟨by simpa using hsz, by simpa using hcap, ?_⟩
        refine ⟨by simpa using harr.1, ?_⟩
        intro i hi2
        simp only [List.length_set] at hi2
        by_cases hii : i = idx
        · subst hii
          simp [List.getElem?_set, show i < b.length by omega, hi2]
        · rw [List.getElem?_set_ne (Ne.symm hii), List.getElem?_set_ne (Ne.symm hii)]
          exact harr.2 i hi2

theorem rep_remove_ge (d : DynamicArray α) (idx : Nat) (h : idx ≥ d.sz) :
    DynamicArray.remove d idx = some (Ptr.null, d) := by
  simp [DynamicArray.remove, h]

theorem rep_shift (b : List (Slot α)) (l : List (Ptr α)) (cap idx : Nat)
    (hlen : b.length = cap) (hcap : l.length ≤ cap) (hidx : idx < l.length)
    (hag : ∀ i, i < l.length → b[i]? = some (Slot.ref ((l[i]?).getD Ptr.null))) :
    ∃ b1, DynamicArray.shift_loop (l.length - (idx + 1)) (idx + 1) (some b) = some (some b1) ∧
      DynamicArray.Rep { arr := some b1, sz := l.length - 1, arr_size := cap }
        (l.eraseIdx idx) := by
  obtain ⟨b1, h1, h2, h3⟩ := shift_loop_spec (fun j => (l[j]?).getD Ptr.null) l.length idx
    (l.length - (idx + 1)) (idx + 1) b (by omega) (by omega) (by omega) (by
      intro j hj
      rw [hag j hj]
      by_cases h4 : j < idx
      · simp [h4]
      · simp [h4, show ¬ j + 1 < idx + 1 by omega])
  refine ⟨b1, h1, ?_⟩
  have hle : (l.eraseIdx idx).length = l.length - 1 := List.length_eraseIdx_of_lt hidx
  refine ⟨by simp [hle], by simp only [hle]; omega, ?_⟩
  refine ⟨by simp only []; omega, ?_⟩
  intro i hi
  rw [hle] at hi
  rw [h3 i (by omega), List.getElem?_eraseIdx]
  by_cases h4 : i < idx
  · simp [h4]
  · simp [h4, show i + 1 < l.length by omega]

theorem rep_remove (d : DynamicArray α) (l : List (Ptr α)) (h : DynamicArray.Rep d l)
    (idx : Nat) (hidx : idx < l.length) :
    ∃ d1, DynamicArray.remove d idx = some ((l[idx]?).getD Ptr.null, d1) ∧
      DynamicArray.Rep d1 (l.eraseIdx idx) := by
  obtain ⟨hsz, hcap, harr⟩ := h
  cases hb : d.arr with
  | none =>
    rw [hb] at harr
    simp at harr
    omega
  | some b =>
    rw [hb] at harr
    have hload : load d.arr idx = some ((l[idx]?).getD Ptr.null) := by
      rw [hb]; exact load_block b idx _ (harr.2 idx hidx)
    unfold DynamicArray.remove
    rw [if_neg (by omega), hload]
    simp only []
    unfold DynamicArray.shrink
    by_cases ht : DynamicArray.SIZE_DOWN_TRIGGER * (d.sz - 1) < d.arr_size
    · rw [if_pos ht]
      by_cases hn : d.arr_size / DynamicArray.SIZE_DOWN_SCALE ≠ 0
      · rw [if_pos hn]
        simp only [DynamicArray.SIZE_DOWN_TRIGGER, DynamicArray.SIZE_DOWN_SCALE] at ht hn
        have hfit : l.length ≤ d.arr_size / 2 := by omega
        obtain ⟨db1, h1, h2, h3⟩ := copy_loop_spec b (fun j => (l[j]?).getD Ptr.null)
          l.length harr.2 d.sz 0
          (List.replicate (d.arr_size / DynamicArray.SIZE_DOWN_SCALE) Slot.indeterminate)
          (by omega) (by simpa [DynamicArray.SIZE_DOWN_SCALE] using hfit)
          (by intro j hj; omega)
        rw [hb]
        simp only [alloc]
        rw [h1]
        simp only []
        obtain ⟨b1, hs1, hs2⟩ := rep_shift db1 l (d.arr_size / DynamicArray.SIZE_DOWN_SCALE) idx
          (by simpa using h2) (by simpa [DynamicArray.SIZE_DOWN_SCALE] using hfit) hidx h3
        rw [hsz, hs1]
        exact ⟨_, rfl, hs2⟩
      · rw [if_neg hn]
        simp only [DynamicArray.SIZE_DOWN_TRIGGER, DynamicArray.SIZE_DOWN_SCALE] at ht hn
        have hone : l.length = 1 := by omega
        have hidx0 : idx = 0 := by omega
        subst hidx0
        simp only [hsz, hone, DynamicArray.shift_loop]
        refine ⟨_, rfl, ?_⟩
        have hl : l.eraseIdx 0 = [] := by
          apply List.eq_nil_of_length_eq_zero
          rw [List.length_eraseIdx_of_lt hidx]; omega
        rw [hl]
        refine ⟨rfl, by simp, ?_⟩
        simp [DynamicArray.SIZE_DOWN_SCALE]
        omega
    · rw [if_neg ht]
      simp only []
      obtain ⟨b1, hs1, hs2⟩ := rep_shift b l d.arr_size idx harr.1 hcap hidx harr.2
      rw [hb, hsz, hs1]
      exact ⟨_, rfl, hs2⟩

theorem rep_push_all (rs : List (Ptr α)) : ∀ (d : DynamicArray α) (l : List (Ptr α)),
    DynamicArray.Rep d l →
    ∃ d1, DynamicArray.push_all rs d = some d1 ∧ DynamicArray.Rep d1 (l ++ rs) := by
  induction rs with
  | nil =>
    intro d l h
    exact ⟨d, rfl, by simpa using h⟩
  | cons r rs ih =>
    intro d l h
    obtain ⟨d1, h1, h2⟩ := rep_push_back d l h r
    obtain ⟨d2, h3, h4⟩ := ih d1 (l ++ [r]) h2
    refine ⟨d2, ?_, by simpa using h4⟩
    simp [DynamicArray.push_all, h1, h3]

theorem reachable_rep (d : DynamicArray α) (h : DynamicArray.Reachable d) :
    ∃ l, DynamicArray.Rep d l := by
  induction h with
  | new => exact ⟨[], rep_new⟩
  | push_back d d1 el _ hp ih =>
    obtain ⟨l, hl⟩ := ih
    obtain ⟨d2, h1, h2⟩ := rep_push_back d l hl el
    rw [hp] at h1
    cases h1
    exact ⟨_, h2⟩
  | remove d d1 idx res _ hr ih =>
    obtain ⟨l, hl⟩ := ih
    by_cases hi : idx < l.length
    · obtain ⟨d2, h1, h2⟩ := rep_remove d l hl idx hi
      rw [hr] at h1
      cases h1
      exact ⟨_, h2⟩
    · rw [rep_remove_ge d idx (by have := hl.1; omega)] at hr
      cases hr
      exact ⟨l, hl⟩
  | set d d1 idx val _ hs ih =>
    obtain ⟨l, hl⟩ := ih
    obtain ⟨d2, h1, h2⟩ := rep_set d l hl idx val
    rw [hs] at h1
    cases h1
    exact ⟨_, h2⟩

end rep_lemmas

section bucket_lemmas

variable {α : Type}

theorem buckets_size (arr : DynamicArray (DynamicArray α)) (n : Nat) (h : Buckets arr n) :
    arr.size = n := by
  obtain ⟨bs, hr, hn, _⟩ := h
  rw [rep_size arr _ hr]
  simpa using hn

theorem buckets_at (arr : DynamicArray (DynamicArray α)) (n : Nat) (h : Buckets arr n)
    (i : Nat) (hi : i < n) :
    ∃ b l, bucket_at arr i = some b ∧ DynamicArray.Rep b l := by
  obtain ⟨bs, hr, hn, hall⟩ := h
  have hib : i < bs.length := by omega
  obtain ⟨l, hl⟩ := hall bs[i] (List.getElem_mem hib)
  refine ⟨bs[i], l, ?_, hl⟩
  unfold bucket_at
  rw [rep_index arr _ hr i]
  simp [List.getElem?_eq_getElem hib, Ptr.deref]

theorem rep_set_pointee (d : DynamicArray (DynamicArray α)) (l : List (Ptr (DynamicArray α)))
    (h : DynamicArray.Rep d l) (i : Nat) (hi : i < l.length) (b : DynamicArray α) :
    d.set i (Ptr.to b) = some (d.update_pointee i b) := by
  obtain ⟨hsz, hcap, harr⟩ := h
  unfold DynamicArray.set DynamicArray.update_pointee
  rw [if_neg (by omega)]
  cases hb : d.arr with
  | none =>
    rw [hb] at harr
    simp at harr
    omega
  | some blk =>
    rw [hb] at harr
    simp [store, show i < blk.length by omega]

theorem buckets_set (arr : DynamicArray (DynamicArray α)) (n : Nat) (h : Buckets arr n)
    (i : Nat) (b : DynamicArray α) (l : List (Ptr α)) (hb : DynamicArray.Rep b l) :
    ∃ arr1, arr.set i (Ptr.to b) = some arr1 ∧ Buckets arr1 n := by
  obtain ⟨bs, hr, hn, hall⟩ := h
  obtain ⟨arr1, h1, h2⟩ := rep_set arr _ hr i (Ptr.to b)
  refine ⟨arr1, h1, bs.set i b, ?_, by simpa using hn, ?_⟩
  · rw [List.map_set]
    exact h2
  · intro c hc
    rcases List.mem_or_eq_of_mem_set hc with h3 | h3
    · exact hall c h3
    · subst h3
      exact ⟨l, hb⟩

theorem buckets_update (arr : DynamicArray (DynamicArray α)) (n : Nat) (h : Buckets arr n)
    (i : Nat) (hi : i < n) (b : DynamicArray α) (l : List (Ptr α))
    (hb : DynamicArray.Rep b l) : Buckets (arr.update_pointee i b) n := by
  obtain ⟨arr1, h1, h2⟩ := buckets_set arr n h i b l hb
  obtain ⟨bs, hr, hn, _⟩ := h
  rw [rep_set_pointee arr _ hr i (by simpa using (by omega : i < bs.length)) b] at h1
  cases h1
  exact h2

theorem buckets_push (arr : DynamicArray (DynamicArray α)) (n : Nat) (h : Buckets arr n) :
    ∃ arr1, arr.push_back (Ptr.to DynamicArray.new) = some arr1 ∧ Buckets arr1 (n + 1) := by
  obtain ⟨bs, hr, hn, hall⟩ := h
  obtain ⟨arr1, h1, h2⟩ := rep_push_back arr _ hr (Ptr.to DynamicArray.new)
  refine ⟨arr1, h1, bs ++ [DynamicArray.new], by simpa using h2, by simp [hn], ?_⟩
  intro c hc
  rcases List.mem_append.mp hc with h3 | h3
  · exact hall c h3
  · simp at h3
    subst h3
    exact ⟨[], rep_new⟩

theorem buckets_new : Buckets (DynamicArray.new : DynamicArray (DynamicArray α)) 0 :=
  ⟨[], by simpa using rep_new, rfl, by simp⟩

theorem init_loop_spec : ∀ (n m : Nat) (ks vs : DynamicArray (DynamicArray α)),
    Buckets ks m → Buckets vs m →
    ∃ ks1 vs1, HashMap.init_loop n ks vs = some (ks1, vs1) ∧
      Buckets ks1 (m + n) ∧ Buckets vs1 (m + n) := by
  intro n
  induction n with
  | zero =>
    intro m ks vs hk hv
    exact ⟨ks, vs, rfl, hk, hv⟩
  | succ n ih =>
    intro m ks vs hk hv
    obtain ⟨ks1, h1, h2⟩ := buckets_push ks m hk
    obtain ⟨vs1, h3, h4⟩ := buckets_push vs m hv
    obtain ⟨ks2, vs2, h5, h6, h7⟩ := ih (m + 1) ks1 vs1 h2 h4
    refine ⟨ks2, vs2, ?_, by rw [show m + (n + 1) = m + 1 + n by omega]; exact h6,
      by rw [show m + (n + 1) = m + 1 + n by omega]; exact h7⟩
    simp [HashMap.init_loop, h1, h3, h5]

end bucket_lemmas

section hash_map_lemmas

variable {α : Type} (key_cmp : Ptr α → Ptr α → Int) (hash_func : Ptr α → Nat → Nat)

theorem add_binding_loop_total (key : Ptr α) (kb : DynamicArray α) (l : List (Ptr α))
    (hkb : DynamicArray.Rep kb l) :
    ∀ n i, ∃ r, HashMap.add_binding_loop key_cmp key kb n i = some r := by
  intro n
  induction n with
  | zero => intro i; exact ⟨none, rfl⟩
  | succ n ih =>
    intro i
    unfold HashMap.add_binding_loop
    rw [rep_index kb l hkb i]
    simp only []
    split
    · exact ⟨_, rfl⟩
    · exact ih (i + 1)

theorem add_binding_spec (n : Nat) (values keys : DynamicArray (DynamicArray α))
    (hv : Buckets values n) (hk : Buckets keys n) (key value : Ptr α)
    (hh : hash_func key keys.size < n) :
    ∃ r, HashMap.add_binding key_cmp hash_func values keys key value = some r ∧
      Buckets r.2.1 n ∧ Buckets r.2.2 n := by
  obtain ⟨kb, lk, hkb, hlk⟩ := buckets_at keys n hk _ hh
  obtain ⟨vb, lv, hvb, hlv⟩ := buckets_at values n hv _ hh
  obtain ⟨r, hr⟩ := add_binding_loop_total key_cmp key kb lk hlk kb.size 0
  unfold HashMap.add_binding
  rw [hkb]
  simp only []
  rw [hr]
  cases r with
  | some i =>
    obtain ⟨kb1, h1, h2⟩ := rep_set kb lk hlk i value
    simp only [h1]
    exact ⟨_, rfl, hv, buckets_update keys n hk _ hh kb1 _ h2⟩
  | none =>
    obtain ⟨kb1, h1, h2⟩ := rep_push_back kb lk hlk key
    obtain ⟨vb1, h3, h4⟩ := rep_push_back vb lv hlv value
    simp only [h1, hvb, h3]
    exact ⟨_, rfl, buckets_update values n hv _ hh vb1 _ h4,
      buckets_update keys n hk _ hh kb1 _ h2⟩

theorem lookup_loop_total (values : DynamicArray (DynamicArray α)) (m : Nat)
    (hv : Buckets values m) (key_hash : Nat) (hkh : key_hash < m) (key : Ptr α)
    (kb : DynamicArray α) (l : List (Ptr α)) (hkb : DynamicArray.Rep kb l) :
    ∀ n i, ∃ v, HashMap.lookup_loop key_cmp values key_hash key kb n i = some v := by
  obtain ⟨vb, lv, hvb, hlv⟩ := buckets_at values m hv _ hkh
  intro n
  induction n with
  | zero => intro i; exact ⟨Ptr.null, rfl⟩
  | succ n ih =>
    intro i
    unfold HashMap.lookup_loop
    rw [rep_index kb l hkb i]
    simp only []
    split
    · rw [hvb]
      simp only []
      rw [rep_index vb lv hlv i]
      exact ⟨_, rfl⟩
    · exact ih (i + 1)

theorem lookup_total (hb : ∀ k n, 0 < n → hash_func k n < n) (h : HashMap α)
    (hwf : HashMap.WF h) (key : Ptr α) :
    ∃ v, HashMap.lookup key_cmp hash_func h key = some v := by
  obtain ⟨m, hm, hk, hv, _⟩ := hwf
  have hh : hash_func key h.keys.size < m := by
    rw [buckets_size h.keys m hk]; exact hb key m hm
  obtain ⟨kb, lk, hkb, hlk⟩ := buckets_at h.keys m hk _ hh
  unfold HashMap.lookup
  rw [hkb]
  exact lookup_loop_total key_cmp h.values m hv _ hh key kb lk hlk kb.size 0

theorem grow_inner_spec (hb : ∀ k n, 0 < n → hash_func k n < n) (h : HashMap α) (m : Nat)
    (hv : Buckets h.values m) (i : Nat) (hi : i < m) (kb : DynamicArray α)
    (l : List (Ptr α)) (hkb : DynamicArray.Rep kb l) (n1 : Nat) (hn1 : 0 < n1) :
    ∀ (n j : Nat) (s : DynamicArray (DynamicArray α) × DynamicArray (DynamicArray α)),
      Buckets s.1 n1 → Buckets s.2 n1 →
      ∃ s1, HashMap.grow_inner key_cmp hash_func h i kb n j s = some s1 ∧
        Buckets s1.1 n1 ∧ Buckets s1.2 n1 := by
  obtain ⟨vb, lv, hvb, hlv⟩ := buckets_at h.values m hv _ hi
  intro n
  induction n with
  | zero => intro j s h1 h2; exact ⟨s, rfl, h1, h2⟩
  | succ n ih =>
    intro j s h1 h2
    unfold HashMap.grow_inner
    rw [rep_index kb l hkb j]
    simp only [hvb]
    rw [rep_index vb lv hlv j]
    simp only []
    obtain ⟨r, hr, hr1, hr2⟩ := add_binding_spec key_cmp hash_func n1 s.1 s.2 h1 h2
      ((l[j]?).getD Ptr.null) ((lv[j]?).getD Ptr.null)
      (by rw [buckets_size s.2 n1 h2]; exact hb _ n1 hn1)
    rw [hr]
    exact ih (j + 1) (r.2.1, r.2.2) hr1 hr2

theorem grow_outer_spec (hb : ∀ k n, 0 < n → hash_func k n < n) (h : HashMap α) (m : Nat)
    (hk : Buckets h.keys m) (hv : Buckets h.values m) (n1 : Nat) (hn1 : 0 < n1) :
    ∀ (n i : Nat) (s : DynamicArray (DynamicArray α) × DynamicArray (DynamicArray α)),
      i + n ≤ m → Buckets s.1 n1 → Buckets s.2 n1 →
      ∃ s1, HashMap.grow_outer key_cmp hash_func h n i s = some s1 ∧
        Buckets s1.1 n1 ∧ Buckets s1.2 n1 := by
  intro n
  induction n with
  | zero => intro i s _ h1 h2; exact ⟨s, rfl, h1, h2⟩
  | succ n ih =>
    intro i s hin h1 h2
    obtain ⟨kb, lk, hkb, hlk⟩ := buckets_at h.keys m hk i (by omega)
    obtain ⟨s1, hs1, h3, h4⟩ := grow_inner_spec key_cmp hash_func hb h m hv i (by omega)
      kb lk hlk n1 hn1 kb.size 0 s h1 h2
    unfold HashMap.grow_outer
    rw [hkb]
    simp only [hs1]
    exact ih (i + 1) s1 (by omega) h3 h4

theorem rehash_grow_spec (hb : ∀ k n, 0 < n → hash_func k n < n) (h : HashMap α)
    (hwf : HashMap.WF h) :
    ∃ h1, HashMap.rehash_grow key_cmp hash_func h = some h1 ∧ HashMap.WF h1 ∧
      h1.elements_num = h.elements_num := by
  obtain ⟨m, hm, hk, hv, hsz⟩ := hwf
  have hsize : h.keys.size = m := buckets_size h.keys m hk
  obtain ⟨ks1, vs1, hi1, hi2, hi3⟩ := init_loop_spec (h.keys.size * HashMap.SIZE_UP_SCALE) 0
    (DynamicArray.new : DynamicArray (DynamicArray α)) DynamicArray.new buckets_new buckets_new
  have hpos : 0 < 0 + h.keys.size * HashMap.SIZE_UP_SCALE := by
    rw [hsize]; simp [HashMap.SIZE_UP_SCALE]; omega
  obtain ⟨s1, hs1, h3, h4⟩ := grow_outer_spec key_cmp hash_func hb h m hk hv _ hpos
    h.keys.size 0 (vs1, ks1) (by omega) hi3 hi2
  unfold HashMap.rehash_grow
  rw [hi1]
  simp only [hs1]
  exact ⟨_, rfl, ⟨_, hpos, h4, h3, hsz⟩, rfl⟩

theorem add_spec (hb : ∀ k n, 0 < n → hash_func k n < n) (h : HashMap α)
    (hwf : HashMap.WF h) (key value : Ptr α) :
    ∃ r, HashMap.add key_cmp hash_func h key value = some r ∧ HashMap.WF r.2 := by
  have hcond : ∃ g, HashMap.grow_cond key_cmp hash_func h key = some g := by
    unfold HashMap.grow_cond
    split
    · obtain ⟨v, hv⟩ := lookup_total key_cmp hash_func hb h hwf key
      rw [hv]
      exact ⟨_, rfl⟩
    · exact ⟨_, rfl⟩
  obtain ⟨g, hg⟩ := hcond
  have hmid : ∃ h1, (if g then HashMap.rehash_grow key_cmp hash_func h else some h) = some h1 ∧
      HashMap.WF h1 := by
    cases g with
    | true =>
      obtain ⟨h1, e1, e2, _⟩ := rehash_grow_spec key_cmp hash_func hb h hwf
      exact ⟨h1, by simpa using e1, e2⟩
    | false => exact ⟨h, by simp, hwf⟩
  obtain ⟨h1, hh1, hwf1⟩ := hmid
  obtain ⟨m, hm, hk, hv, hsz⟩ := hwf1
  obtain ⟨r, hr, hr1, hr2⟩ := add_binding_spec key_cmp hash_func m h1.values h1.keys hv hk
    key value (by rw [buckets_size h1.keys m hk]; exact hb key m hm)
  unfold HashMap.add
  rw [hg]
  simp only []
  rw [hh1]
  simp only [hr]
  exact ⟨_, rfl, ⟨m, hm, hr2, hr1, hsz⟩⟩

theorem rebuild_loop_spec (values : DynamicArray (DynamicArray α)) (m : Nat)
    (hv : Buckets values m) (key_hash : Nat) (hkh : key_hash < m) (key : Ptr α)
    (kb : DynamicArray α) (l : List (Ptr α)) (hkb : DynamicArray.Rep kb l) :
    ∀ (n j : Nat) (s : Ptr α × DynamicArray α × DynamicArray α),
      (∃ l1, DynamicArray.Rep s.2.1 l1) → (∃ l2, DynamicArray.Rep s.2.2 l2) →
      ∃ s1, HashMap.rebuild_loop key_cmp values key_hash key kb n j s = some s1 ∧
        (∃ l1, DynamicArray.Rep s1.2.1 l1) ∧ (∃ l2, DynamicArray.Rep s1.2.2 l2) := by
  obtain ⟨vb, lv, hvb, hlv⟩ := buckets_at values m hv _ hkh
  intro n
  induction n with
  | zero => intro j s h1 h2; exact ⟨s, rfl, h1, h2⟩
  | succ n ih =>
    intro j s h1 h2
    unfold HashMap.rebuild_loop
    rw [rep_index kb l hkb j]
    simp only []
    split
    · obtain ⟨l1, hl1⟩ := h1
      obtain ⟨l2, hl2⟩ := h2
      obtain ⟨nk, e1, e2⟩ := rep_push_back s.2.1 l1 hl1 ((l[j]?).getD Ptr.null)
      rw [e1]
      simp only [hvb]
      rw [rep_index vb lv hlv j]
      simp only []
      obtain ⟨nv, e3, e4⟩ := rep_push_back s.2.2 l2 hl2 ((lv[j]?).getD Ptr.null)
      rw [e3]
      exact ih (j + 1) _ ⟨_, e2⟩ ⟨_, e4⟩
    · exact ih (j + 1) _ h1 h2

theorem remove_rebuild_spec (hb : ∀ k n, 0 < n → hash_func k n < n) (h : HashMap α)
    (hwf : HashMap.WF h) (key : Ptr α) :
    ∃ r, HashMap.remove_rebuild key_cmp hash_func h key = some r ∧ HashMap.WF r.2 := by
  obtain ⟨m, hm, hk, hv, hsz⟩ := hwf
  have hh : hash_func key h.keys.size < m := by
    rw [buckets_size h.keys m hk]; exact hb key m hm
  obtain ⟨kb, lk, hkb, hlk⟩ := buckets_at h.keys m hk _ hh
  obtain ⟨s, hs, ⟨l1, hl1⟩, ⟨l2, hl2⟩⟩ := rebuild_loop_spec key_cmp h.values m hv _ hh key kb lk hlk
    kb.size 0 (Ptr.null, DynamicArray.new, DynamicArray.new) ⟨[], rep_new⟩ ⟨[], rep_new⟩
  obtain ⟨ks, e1, e2⟩ := buckets_set h.keys m hk (hash_func key h.keys.size) s.2.1 l1 hl1
  obtain ⟨vs, e3, e4⟩ := buckets_set h.values m hv (hash_func key h.keys.size) s.2.2 l2 hl2
  unfold HashMap.remove_rebuild
  rw [hkb]
  simp only [hs, e1, e3]
  exact ⟨_, rfl, ⟨m, hm, e2, e4, hsz⟩⟩

theorem remove_spec (hb : ∀ k n, 0 < n → hash_func k n < n) (h : HashMap α)
    (hwf : HashMap.WF h) (key : Ptr α) :
    ∃ r, HashMap.remove key_cmp hash_func h key = some r ∧ HashMap.WF r.2 := by
  obtain ⟨v, hv⟩ := lookup_total key_cmp hash_func hb h hwf key
  have hsz : h.size = HashMap.DEFAULT_SIZE := by
    obtain ⟨_, _, _, _, e⟩ := hwf; exact e
  unfold HashMap.remove
  rw [hv]
  simp only []
  split
  · exact ⟨_, rfl, hwf⟩
  · rw [if_neg (by rw [hsz]; simp [HashMap.DEFAULT_SIZE])]
    exact remove_rebuild_spec key_cmp hash_func hb h hwf key

theorem new_wf (h : HashMap α) (hn : HashMap.new = some h) : HashMap.WF h := by
  obtain ⟨ks, vs, h1, h2, h3⟩ := init_loop_spec HashMap.DEFAULT_SIZE 0
    (DynamicArray.new : DynamicArray (DynamicArray α)) DynamicArray.new buckets_new buckets_new
  unfold HashMap.new at hn
  rw [h1] at hn
  simp only [Option.some.injEq] at hn
  subst hn
  exact ⟨_, by simp [HashMap.DEFAULT_SIZE], h2, h3, rfl⟩

theorem reachable_wf (hb : ∀ k n, 0 < n → hash_func k n < n) (h : HashMap α)
    (hr : HashMap.Reachable key_cmp hash_func h) : HashMap.WF h := by
  induction hr with
  | new h hn => exact new_wf h hn
  | add h h1 key value added _ ha ih =>
    obtain ⟨r, e1, e2⟩ := add_spec key_cmp hash_func hb h ih key value
    rw [ha] at e1
    cases e1
    exact e2
  | remove h h1 key res _ hrm ih =>
    obtain ⟨r, e1, e2⟩ := remove_spec key_cmp hash_func hb h ih key
    rw [hrm] at e1
    cases e1
    exact e2

end hash_map_lemmas

section claims

/-- C1: for every sequence `rs` of references pushed with `push_back` onto a freshly
constructed array, the calls all return, `size()` is the number of calls, `operator[]`
at `i` returns the `i`-th pushed reference for every `i` below that number, and
`nullptr` (absent) for every other `i`. -/
theorem C1_push_back_size_index {α : Type} (rs : List (Ptr α)) :
    ∃ d, DynamicArray.push_all rs DynamicArray.new = some d ∧
      d.size = rs.length ∧
      (∀ i, i < rs.length → d.index i = rs[i]?) ∧
      (∀ i, rs.length ≤ i → d.index i = some Ptr.null) := by
  obtain ⟨d, h1, h2⟩ := rep_push_all rs DynamicArray.new [] rep_new
  simp only [List.nil_append] at h2
  refine ⟨d, h1, rep_size d rs h2, ?_, ?_⟩
  · intro i hi
    rw [rep_index d rs h2 i, List.getElem?_eq_getElem hi]
    rfl
  · intro i hi
    rw [rep_index d rs h2 i, List.getElem?_eq_none_iff.mpr hi]
    rfl

/-- C2: on every array reachable from the empty one by `push_back`, `remove` and `set`,
and for every `idx < size()`, `remove(idx)` returns the reference that `operator[]`
gave at `idx`, `size()` drops by one, `operator[]` is unchanged below `idx`, and at
every `i` from `idx` up to the new size it gives what it gave at `i + 1` before. -/
theorem C2_remove_left_shift {α : Type} (d : DynamicArray α)
    (hd : DynamicArray.Reachable d) (idx : Nat) (hidx : idx < d.size) :
    ∃ res d1, DynamicArray.remove d idx = some (res, d1) ∧
      d.index idx = some res ∧
      d1.size + 1 = d.size ∧
      (∀ i, i < idx → ∃ p, d.index i = some p ∧ d1.index i = some p) ∧
      (∀ i, idx ≤ i → i < d1.size → ∃ p, d.index (i + 1) = some p ∧ d1.index i = some p) := by
  obtain ⟨l, hl⟩ := reachable_rep d hd
  have hlen : d.size = l.length := rep_size d l hl
  rw [hlen] at hidx
  obtain ⟨d1, h1, h2⟩ := rep_remove d l hl idx hidx
  have hlen1 : d1.size = l.length - 1 := by
    rw [rep_size d1 _ h2, List.length_eraseIdx_of_lt hidx]
  refine ⟨_, d1, h1, rep_index d l hl idx, by omega, ?_, ?_⟩
  · intro i hi
    refine ⟨_, rep_index d l hl i, ?_⟩
    rw [rep_index d1 _ h2 i, List.getElem?_eraseIdx_of_lt l idx i hi]
  · intro i hi _
    refine ⟨_, rep_index d l hl (i + 1), ?_⟩
    rw [rep_index d1 _ h2 i, List.getElem?_eraseIdx_of_ge l idx i hi]

theorem array_7_8_9_reachable : DynamicArray.Reachable array_7_8_9 := by
  have h0 : DynamicArray.Reachable (DynamicArray.new : DynamicArray Nat) :=
    DynamicArray.Reachable.new
  have h1 := DynamicArray.Reachable.push_back _ _ (Ptr.to 7) h0 rfl
  have h2 := DynamicArray.Reachable.push_back _ _ (Ptr.to 8) h1 rfl
  exact DynamicArray.Reachable.push_back _ _ (Ptr.to 9) h2 rfl

/-- C2 at the array holding 7, 8, 9 and index 1. -/
theorem C2_remove_left_shift_witness :
    DynamicArray.Reachable array_7_8_9 ∧ 1 < array_7_8_9.size ∧
    ∃ res d1, DynamicArray.remove array_7_8_9 1 = some (res, d1) ∧
      array_7_8_9.index 1 = some res ∧
      d1.size + 1 = array_7_8_9.size ∧
      (∀ i, i < 1 → ∃ p, array_7_8_9.index i = some p ∧ d1.index i = some p) ∧
      (∀ i, 1 ≤ i → i < d1.size →
        ∃ p, array_7_8_9.index (i + 1) = some p ∧ d1.index i = some p) :=
  ⟨array_7_8_9_reachable, by decide,
    C2_remove_left_shift array_7_8_9 array_7_8_9_reachable 1 (by decide)⟩

/-- C3: in every array state and for every `idx`: when `idx >= size()`, `operator[]`
and `remove` return `nullptr` (absent) and `remove` and `set` leave the whole state
(length, capacity, every slot) as it was; when `idx < size()`, `operator[]` passes the
bounds check and returns what the read of slot `idx` gives. -/
theorem C3_out_of_range_access {α : Type} (d : DynamicArray α) (idx : Nat) (val : Ptr α) :
    (d.size ≤ idx →
      d.index idx = some Ptr.null ∧ d.remove idx = some (Ptr.null, d) ∧
      d.set idx val = some d) ∧
    (idx < d.size → d.index idx = load d.arr idx) := by
  constructor
  · intro h
    have h1 : idx ≥ d.sz := h
    simp [DynamicArray.index, DynamicArray.remove, DynamicArray.set, h1]
  · intro h
    have h1 : ¬ idx ≥ d.sz := by
      have : idx < d.sz := h
      omega
    simp [DynamicArray.index, h1]

end claims

section claims_hash_map

theorem lookup_loop_absent {α : Type} (key_cmp : Ptr α → Ptr α → Int)
    (values : DynamicArray (DynamicArray α)) (key_hash : Nat) (key : Ptr α)
    (kb : DynamicArray α) (l : List (Ptr α)) (hkb : DynamicArray.Rep kb l)
    (habs : ∀ j p, j < kb.size → kb.index j = some p → key_cmp p key ≠ 0) :
    ∀ n i, i + n ≤ kb.size →
      HashMap.lookup_loop key_cmp values key_hash key kb n i = some Ptr.null := by
  intro n
  induction n with
  | zero => intro i _; rfl
  | succ n ih =>
    intro i hi
    unfold HashMap.lookup_loop
    have hidx := rep_index kb l hkb i
    rw [hidx]
    simp only []
    rw [if_neg (habs i _ (by omega) hidx)]
    exact ih (i + 1) (by omega)

theorem hash_nat_lt : ∀ (k : Ptr Nat) (n : Nat), 0 < n → hash_nat k n < n := by
  intro k n hn
  rcases k with _ | a
  · exact hn
  · exact Nat.mod_lt a hn

theorem run_calls_reachable : ∀ (cs : List Call) (h h1 : HashMap Nat),
    HashMap.Reachable cmp_nat hash_nat h → run_calls cs h = some h1 →
    HashMap.Reachable cmp_nat hash_nat h1 := by
  intro cs
  induction cs with
  | nil =>
    intro h h1 hr he
    simp only [run_calls, Option.some.injEq] at he
    subst he
    exact hr
  | cons c cs ih =>
    intro h h1 hr he
    cases c with
    | add k v =>
      simp only [run_calls] at he
      cases ha : HashMap.add cmp_nat hash_nat h (Ptr.to k) (Ptr.to v) with
      | none => rw [ha] at he; cases he
      | some r =>
        rw [ha] at he
        exact ih r.2 h1 (HashMap.Reachable.add h r.2 _ _ r.1 hr ha) he
    | remove k =>
      simp only [run_calls] at he
      cases ha : HashMap.remove cmp_nat hash_nat h (Ptr.to k) with
      | none => rw [ha] at he; cases he
      | some r =>
        rw [ha] at he
        exact ih r.2 h1 (HashMap.Reachable.remove h r.2 _ r.1 hr ha) he

theorem run_fresh_reachable (cs : List Call) (h : HashMap Nat) (he : run_fresh cs = some h) :
    HashMap.Reachable cmp_nat hash_nat h := by
  unfold run_fresh at he
  cases hn : (HashMap.new : Option (HashMap Nat)) with
  | none => rw [hn] at he; cases he
  | some h0 =>
    rw [hn] at he
    exact run_calls_reachable cs h0 h (HashMap.Reachable.new h0 hn) he

theorem map_2_20_reachable : HashMap.Reachable cmp_nat hash_nat map_2_20 :=
  run_fresh_reachable [Call.add 2 20] map_2_20 rfl

theorem map_2_20_no_key_1 : ∀ (i : Nat) (kb : DynamicArray Nat) (j : Nat) (p : Ptr Nat),
    bucket_at map_2_20.keys i = some kb → j < kb.size → kb.index j = some p →
    cmp_nat p (Ptr.to 1) ≠ 0 := by
  intro i kb j p h1 h2 h3
  cases i with
  | zero =>
    have : kb = chain_of 2 := by
      have e : bucket_at map_2_20.keys 0 = some (chain_of 2) := rfl
      rw [e] at h1
      exact (Option.some.inj h1).symm
    subst this
    have hj : j = 0 := by
      have : j < 1 := h2
      omega
    subst hj
    have e : (chain_of 2).index 0 = some (Ptr.to 2) := rfl
    rw [e] at h3
    cases h3
    decide
  | succ i =>
    have e : bucket_at map_2_20.keys (i + 1) = none := by
      simp [bucket_at, DynamicArray.index, map_2_20, Ptr.deref]
    rw [e] at h1
    cases h1

/-- C8: on every reachable map (the hash function returning an index below the bucket
count) and for every key `key` such that no key stored in any bucket chain compares equal
to it, `remove(key)` returns `nullptr` (absent) and leaves the whole state as it was:
both bucket arrays with every chain, `elements_num` and `size`. -/
theorem C8_remove_absent_key_noop {α : Type} (key_cmp : Ptr α → Ptr α → Int)
    (hash_func : Ptr α → Nat → Nat) (hb : ∀ k n, 0 < n → hash_func k n < n)
    (h : HashMap α) (hr : HashMap.Reachable key_cmp hash_func h) (key : Ptr α)
    (habs : ∀ (i : Nat) (kb : DynamicArray α) (j : Nat) (p : Ptr α),
      bucket_at h.keys i = some kb → j < kb.size → kb.index j = some p →
      key_cmp p key ≠ 0) :
    HashMap.remove key_cmp hash_func h key = some (Ptr.null, h) := by
  obtain ⟨m, hm, hk, hv, _⟩ := reachable_wf key_cmp hash_func hb h hr
  have hh : hash_func key h.keys.size < m := by
    rw [buckets_size h.keys m hk]; exact hb key m hm
  obtain ⟨kb, lk, hkb, hlk⟩ := buckets_at h.keys m hk _ hh
  have hl : HashMap.lookup key_cmp hash_func h key = some Ptr.null := by
    unfold HashMap.lookup
    rw [hkb]
    exact lookup_loop_absent key_cmp h.values _ key kb lk hlk
      (fun j p h1 h2 => habs _ kb j p hkb h1 h2) kb.size 0 (by omega)
  unfold HashMap.remove
  rw [hl]
  rfl

/-- C8 at the map holding the binding of key 2 and the absent key 1. -/
theorem C8_remove_absent_key_noop_witness :
    HashMap.Reachable cmp_nat hash_nat map_2_20 ∧
    HashMap.remove cmp_nat hash_nat map_2_20 (Ptr.to 1) = some (Ptr.null, map_2_20) :=
  ⟨map_2_20_reachable,
    C8_remove_absent_key_noop cmp_nat hash_nat hash_nat_lt map_2_20 map_2_20_reachable
      (Ptr.to 1) map_2_20_no_key_1⟩

/-- C4, the code at the failing input: on the map reached by `add(1, 10)`, the call
`add(1, 20)` is followed by a lookup of 1 that returns `nullptr` (absent), not 20. -/
theorem C4_add_bound_key_then_lookup :
    lookup_after [Call.add 1 10] 1 = some (Ptr.to 10) ∧
    lookup_after [Call.add 1 10, Call.add 1 20] 1 = some Ptr.null :=
  ⟨rfl, rfl⟩

/-- C5, the code at the failing input: after `add(1, 10)` and `add(1, 20)` on a fresh
map the key chain of bucket 0 holds 20 instead of the key 1, the value chain still holds
10, `elements_num` is 1 after either call, and the lookup of 1 returns `nullptr`. -/
theorem C5_duplicate_add_overwrites_key_slot :
    (run_fresh [Call.add 1 10]).map
        (fun h => (chains h.keys, chains h.values, h.elements_num))
      = some ([some [some (Ptr.to 1)]], [some [some (Ptr.to 10)]], 1) ∧
    (run_fresh [Call.add 1 10, Call.add 1 20]).map
        (fun h => (chains h.keys, chains h.values, h.elements_num))
      = some ([some [some (Ptr.to 20)]], [some [some (Ptr.to 10)]], 1) ∧
    lookup_after [Call.add 1 10, Call.add 1 20] 1 = some Ptr.null :=
  ⟨rfl, rfl, rfl⟩

/-- C6, the code at the failing input: after `add(1, 10)`, `add(2, 20)`, `add(3, 11)`,
`add(1, 3)`, `add(5, 50)` the key chains are `[2]` and `[3, 3, 5]`, so no stored key
equals 11 and the lookup of 11 returns `nullptr`; yet `add(11, 99)` returns false and
leaves `elements_num` at 4. -/
theorem C6_add_returns_false_for_unbound_key :
    (run_fresh [Call.add 1 10, Call.add 2 20, Call.add 3 11, Call.add 1 3, Call.add 5 50]).map
        (fun h => (chains h.keys, h.elements_num))
      = some ([some [some (Ptr.to 2)],
               some [some (Ptr.to 3), some (Ptr.to 3), some (Ptr.to 5)]], 4) ∧
    lookup_after [Call.add 1 10, Call.add 2 20, Call.add 3 11, Call.add 1 3, Call.add 5 50] 11
      = some Ptr.null ∧
    (run_fresh [Call.add 1 10, Call.add 2 20, Call.add 3 11, Call.add 1 3, Call.add 5 50]).bind
        (fun h => (HashMap.add cmp_nat hash_nat h (Ptr.to 11) (Ptr.to 99)).map
          (fun r => (r.1, r.2.elements_num)))
      = some (false, 4) :=
  ⟨rfl, rfl, rfl⟩

/-- C7, the code at the failing input: after `add(1, 10)`, `add(2, 20)`, `add(3, 30)`,
`add(1, 4)` the key 4 is stored in bucket 1 with the value 10, yet `remove(4)` returns
`nullptr` and leaves the map as it was. -/
theorem C7_remove_stored_key_returns_absent :
    (run_fresh [Call.add 1 10, Call.add 2 20, Call.add 3 30, Call.add 1 4]).map
        (fun h => (chains h.keys, chains h.values, h.elements_num))
      = some ([some [some (Ptr.to 2)], some [some (Ptr.to 4), some (Ptr.to 3)]],
              [some [some (Ptr.to 20)], some [some (Ptr.to 10), some (Ptr.to 30)]], 3) ∧
    (run_fresh [Call.add 1 10, Call.add 2 20, Call.add 3 30, Call.add 1 4]).bind
        (fun h => (HashMap.remove cmp_nat hash_nat h (Ptr.to 4)).map
          (fun r => (r.1, decide (r.2 = h))))
      = some (Ptr.null, true) :=
  ⟨rfl, rfl⟩

/-- C9, the code at the failing input: on the map reached by `add(1, 10)` the lookup of
2 returns `nullptr`; after `add(1, 2)`, a call on the key 1, the lookup of the other key
2 returns 10. The scenario of the claim itself runs as the claim says: after adding the
keys 97, 98, 99 (the characters a, b, c) and removing 97, the lookup of 97 is absent and
those of 98 and 99 return their values. -/
theorem C9_add_disturbs_other_key :
    lookup_after [Call.add 1 10] 2 = some Ptr.null ∧
    lookup_after [Call.add 1 10, Call.add 1 2] 2 = some (Ptr.to 10) ∧
    lookup_after [Call.add 97 1, Call.add 98 2, Call.add 99 3, Call.remove 97] 97
      = some Ptr.null ∧
    lookup_after [Call.add 97 1, Call.add 98 2, Call.add 99 3, Call.remove 97] 98
      = some (Ptr.to 2) ∧
    lookup_after [Call.add 97 1, Call.add 98 2, Call.add 99 3, Call.remove 97] 99
      = some (Ptr.to 3) :=
  ⟨rfl, rfl, rfl, rfl, rfl⟩

/-- C10, the code at the failing input: after `add(1, 10)`, `add(2, 20)`, `add(1, 2)`,
`remove(2)` the array `get_keys()` returns has size 0 while `elements_num` is 1; and
after `add(1, 10)`, `add(2, 20)`, `add(3, 30)`, `add(1, 4)` the array `get_keys()`
returns is 2, 4, 3 (bucket order, then slot order) while the lookup of 4 returns
`nullptr`. -/
theorem C10_get_keys_size_differs_from_elements_num :
    (run_fresh [Call.add 1 10, Call.add 2 20, Call.add 1 2, Call.remove 2]).bind
        (fun h => (HashMap.get_keys h).map (fun ks => (ks.size, h.elements_num)))
      = some (0, 1) ∧
    (run_fresh [Call.add 1 10, Call.add 2 20, Call.add 3 30, Call.add 1 4]).bind
        (fun h => (HashMap.get_keys h).map DynamicArray.contents)
      = some [some (Ptr.to 2), some (Ptr.to 4), some (Ptr.to 3)] ∧
    lookup_after [Call.add 1 10, Call.add 2 20, Call.add 3 30, Call.add 1 4] 4
      = some Ptr.null :=
  ⟨rfl, rfl, rfl⟩

end claims_hash_map

section claims_capacity

variable {α : Type}

theorem grow_fields (d g : DynamicArray α) (h : DynamicArray.grow d = some g) :
    g.sz = d.sz ∧
    g.arr_size = (if d.sz + 1 > d.arr_size then
        (if d.arr_size = 0 then 2 else 2 * d.arr_size) else d.arr_size) := by
  unfold DynamicArray.grow at h
  by_cases hg : d.sz + 1 > d.arr_size
  · rw [if_pos hg] at h
    rw [if_pos hg]
    by_cases h0 : d.arr_size = 0
    · rw [if_pos h0] at h
      rw [if_pos h0]
      cases h
      exact ⟨rfl, rfl⟩
    · rw [if_neg h0] at h
      rw [if_neg h0]
      cases hc : DynamicArray.copy_loop d.arr d.sz 0
          (alloc (DynamicArray.SIZE_UP_SCALE * d.arr_size)) with
      | none => rw [hc] at h; cases h
      | some a =>
        rw [hc] at h
        cases h
        exact ⟨rfl, rfl⟩
  · rw [if_neg hg] at h
    rw [if_neg hg]
    cases h
    exact ⟨rfl, rfl⟩

theorem push_back_fields (d d1 : DynamicArray α) (el : Ptr α)
    (h : DynamicArray.push_back d el = some d1) :
    d1.sz = d.sz + 1 ∧
    d1.arr_size = (if d.sz + 1 > d.arr_size then
        (if d.arr_size = 0 then 2 else 2 * d.arr_size) else d.arr_size) := by
  unfold DynamicArray.push_back at h
  cases hg : DynamicArray.grow d with
  | none => rw [hg] at h; cases h
  | some g =>
    rw [hg] at h
    simp only [] at h
    obtain ⟨e1, e2⟩ := grow_fields d g hg
    cases hs : store g.arr g.sz el with
    | none => rw [hs] at h; cases h
    | some a =>
      rw [hs] at h
      cases h
      exact ⟨by simp [e1], e2⟩

theorem push_all_capacity : ∀ (rs : List (Ptr α)) (d d1 : DynamicArray α),
    DynamicArray.push_all rs d = some d1 → 1 ≤ d.sz → d.sz ≤ d.arr_size →
    (∃ k, 1 ≤ k ∧ d.arr_size = 2 ^ k) → (d.arr_size = 2 ∨ d.arr_size < 2 * d.sz) →
    d1.sz = d.sz + rs.length ∧ d1.sz ≤ d1.arr_size ∧
    (∃ k, 1 ≤ k ∧ d1.arr_size = 2 ^ k) ∧ (d1.arr_size = 2 ∨ d1.arr_size < 2 * d1.sz) := by
  intro rs
  induction rs with
  | nil =>
    intro d d1 h h1 h2 h3 h4
    simp only [DynamicArray.push_all, Option.some.injEq] at h
    subst h
    exact ⟨rfl, h2, h3, h4⟩
  | cons r rs ih =>
    intro d d1 h h1 h2 h3 h4
    simp only [DynamicArray.push_all] at h
    cases hp : DynamicArray.push_back d r with
    | none => rw [hp] at h; cases h
    | some d2 =>
      rw [hp] at h
      obtain ⟨e1, e2⟩ := push_back_fields d d2 r hp
      obtain ⟨k, hk1, hk2⟩ := h3
      have hpos : 0 < d.arr_size := by omega
      by_cases hg : d.sz + 1 > d.arr_size
      · rw [if_pos hg, if_neg (by omega)] at e2
        obtain ⟨f1, f2, f3, f4⟩ := ih d2 d1 h (by omega) (by omega)
          ⟨k + 1, by omega, by rw [e2, hk2, Nat.pow_succ]; omega⟩ (by omega)
        exact ⟨by simp only [List.length_cons]; omega, f2, f3, f4⟩
      · rw [if_neg hg] at e2
        obtain ⟨f1, f2, f3, f4⟩ := ih d2 d1 h (by omega) (by omega)
          ⟨k, hk1, by rw [e2, hk2]⟩ (by omega)
        exact ⟨by simp only [List.length_cons]; omega, f2, f3, f4⟩

/-- C17: a `push_back` that returns has changed the capacity exactly when
`length + 1 > capacity` held before, to 2 from capacity 0 and to twice the capacity
otherwise, and on every reachable array it returns; after `n >= 1` calls on a fresh
array the capacity is a power of two that is at least `max(n, 2)` and at most every
other such power of two. -/
theorem C17_growth_policy :
    (∀ (d : DynamicArray α) (el : Ptr α),
      (DynamicArray.Reachable d → ∃ d1, d.push_back el = some d1) ∧
      ∀ d1, d.push_back el = some d1 →
        d1.arr_size = (if d.size + 1 > d.arr_size then
          (if d.arr_size = 0 then 2 else 2 * d.arr_size) else d.arr_size) ∧
        (d1.arr_size ≠ d.arr_size ↔ d.size + 1 > d.arr_size)) ∧
    (∀ (rs : List (Ptr α)), 1 ≤ rs.length →
      ∃ d k, DynamicArray.push_all rs DynamicArray.new = some d ∧
        d.arr_size = 2 ^ k ∧ max rs.length 2 ≤ 2 ^ k ∧
        ∀ j, max rs.length 2 ≤ 2 ^ j → 2 ^ k ≤ 2 ^ j) := by
  constructor
  · intro d el
    constructor
    · intro hd
      obtain ⟨l, hl⟩ := reachable_rep d hd
      obtain ⟨d1, h1, _⟩ := rep_push_back d l hl el
      exact ⟨d1, h1⟩
    · intro d1 h
      obtain ⟨_, e2⟩ := push_back_fields d d1 el h
      refine ⟨e2, ?_⟩
      show _ ↔ d.sz + 1 > d.arr_size
      by_cases hg : d.sz + 1 > d.arr_size
      · rw [if_pos hg] at e2
        by_cases h0 : d.arr_size = 0
        · rw [if_pos h0] at e2
          simp only [hg, iff_true]
          omega
        · rw [if_neg h0] at e2
          simp only [hg, iff_true]
          omega
      · rw [if_neg hg] at e2
        simp only [hg, iff_false]
        omega
  · intro rs hrs
    cases rs with
    | nil => simp at hrs
    | cons r rs =>
      obtain ⟨d, hd, _⟩ := rep_push_all (r :: rs) (DynamicArray.new : DynamicArray α) []
        rep_new
      have hd0 := hd
      simp only [DynamicArray.push_all] at hd
      cases hp : DynamicArray.push_back (DynamicArray.new : DynamicArray α) r with
      | none => rw [hp] at hd; cases hd
      | some d2 =>
        rw [hp] at hd
        obtain ⟨e1, e2⟩ := push_back_fields _ d2 r hp
        have e1' : d2.sz = 1 := by simpa [DynamicArray.new] using e1
        have e2' : d2.arr_size = 2 := by simpa [DynamicArray.new] using e2
        obtain ⟨f1, f2, ⟨k, hk1, hk2⟩, f4⟩ := push_all_capacity rs d2 d hd (by omega)
          (by omega) ⟨1, by omega, by rw [e2']; rfl⟩ (Or.inl e2')
        have hn : (r :: rs).length = d.sz := by
          simp only [List.length_cons]; omega
        have h2k : 2 ≤ 2 ^ k := by
          calc 2 = 2 ^ 1 := rfl
            _ ≤ 2 ^ k := Nat.pow_le_pow_right (by omega) hk1
        refine ⟨d, k, hd0, hk2, ?_, ?_⟩
        · rw [hn, ← hk2]
          exact max_le f2 (by rw [hk2]; exact h2k)
        · intro j hj
          rw [hn] at hj
          have hj1 : d.sz ≤ 2 ^ j := le_trans (le_max_left _ _) hj
          have hj2 : 2 ≤ 2 ^ j := le_trans (le_max_right _ _) hj
          rcases f4 with f4 | f4
          · rw [← hk2, f4]; exact hj2
          · have hlt : 2 ^ k < 2 ^ (j + 1) := by
              rw [← hk2, Nat.pow_succ]; omega
            have hkj : k < j + 1 := (Nat.pow_lt_pow_iff_right (by omega)).mp hlt
            exact Nat.pow_le_pow_right (by omega) (by omega)

theorem shrink_fields (d s : DynamicArray α) (h : DynamicArray.shrink d = some s) :
    s.sz = d.sz ∧
    s.arr_size = (if 4 * (d.sz - 1) < d.arr_size then d.arr_size / 2 else d.arr_size) ∧
    (4 * (d.sz - 1) < d.arr_size → d.arr_size / 2 = 0 → s.arr = none) := by
  unfold DynamicArray.shrink at h
  simp only [DynamicArray.SIZE_DOWN_TRIGGER, DynamicArray.SIZE_DOWN_SCALE] at h
  by_cases ht : 4 * (d.sz - 1) < d.arr_size
  · rw [if_pos ht] at h
    rw [if_pos ht]
    by_cases hn : d.arr_size / 2 ≠ 0
    · rw [if_pos hn] at h
      cases hc : DynamicArray.copy_loop d.arr d.sz 0 (alloc (d.arr_size / 2)) with
      | none => rw [hc] at h; cases h
      | some a =>
        rw [hc] at h
        cases h
        exact ⟨rfl, rfl, fun _ h0 => absurd h0 hn⟩
    · rw [if_neg hn] at h
      cases h
      exact ⟨rfl, rfl, fun _ _ => rfl⟩
  · rw [if_neg ht] at h
    rw [if_neg ht]
    cases h
    exact ⟨rfl, rfl, fun h1 _ => absurd h1 ht⟩

theorem shift_loop_null (n i : Nat) (a : Storage α)
    (h : DynamicArray.shift_loop n i (none : Storage α) = some a) : a = none := by
  cases n with
  | zero =>
    simp only [DynamicArray.shift_loop, Option.some.injEq] at h
    exact h.symm
  | succ n => simp [DynamicArray.shift_loop, load] at h

theorem remove_fields (d d1 : DynamicArray α) (idx : Nat) (res : Ptr α) (hidx : idx < d.sz)
    (h : DynamicArray.remove d idx = some (res, d1)) :
    d1.sz = d.sz - 1 ∧
    d1.arr_size = (if 4 * (d.sz - 1) < d.arr_size then d.arr_size / 2 else d.arr_size) ∧
    (4 * (d.sz - 1) < d.arr_size → d.arr_size / 2 = 0 → d1.arr = none) := by
  unfold DynamicArray.remove at h
  rw [if_neg (by omega)] at h
  cases hl : load d.arr idx with
  | none => rw [hl] at h; cases h
  | some p =>
    rw [hl] at h
    simp only [] at h
    cases hs : DynamicArray.shrink d with
    | none => rw [hs] at h; cases h
    | some s =>
      rw [hs] at h
      simp only [] at h
      obtain ⟨e1, e2, e3⟩ := shrink_fields d s hs
      cases hf : DynamicArray.shift_loop (s.sz - (idx + 1)) (idx + 1) s.arr with
      | none => rw [hf] at h; cases h
      | some a =>
        rw [hf] at h
        simp only [Option.some.injEq, Prod.mk.injEq] at h
        obtain ⟨_, h2⟩ := h
        subst h2
        refine ⟨by simp [e1], e2, ?_⟩
        intro h1 h0
        rw [e3 h1 h0] at hf
        exact shift_loop_null _ _ a hf

/-- C18: on every reachable array with `idx < size()`, `remove(idx)` returns and has
changed the capacity exactly when `4 * (size() - 1) < capacity` held before, to half the
capacity (integer division); when that half is 0 the storage is released (`arr` is
`nullptr`) and the array ends with capacity 0 and length 0; otherwise the capacity is
what it was. -/
theorem C18_shrink_policy (d : DynamicArray α) (hd : DynamicArray.Reachable d) (idx : Nat)
    (hidx : idx < d.size) :
    ∃ res d1, d.remove idx = some (res, d1) ∧
      d1.arr_size = (if 4 * (d.size - 1) < d.arr_size then d.arr_size / 2 else d.arr_size) ∧
      (d1.arr_size ≠ d.arr_size ↔ 4 * (d.size - 1) < d.arr_size) ∧
      (4 * (d.size - 1) < d.arr_size → d.arr_size / 2 = 0 →
        d1.arr = none ∧ d1.arr_size = 0 ∧ d1.size = 0) := by
  obtain ⟨l, hl⟩ := reachable_rep d hd
  have hsz : d.sz = l.length := hl.1
  have hcap : l.length ≤ d.arr_size := hl.2.1
  have hidx1 : idx < d.sz := hidx
  obtain ⟨d1, h1, _⟩ := rep_remove d l hl idx (by omega)
  obtain ⟨e1, e2, e3⟩ := remove_fields d d1 idx _ hidx1 h1
  refine ⟨_, d1, h1, e2, ?_, ?_⟩
  · show _ ↔ 4 * (d.sz - 1) < d.arr_size
    by_cases ht : 4 * (d.sz - 1) < d.arr_size
    · rw [if_pos ht] at e2
      simp only [ht, iff_true]
      omega
    · rw [if_neg ht] at e2
      simp only [ht, iff_false]
      omega
  · intro ht h0
    have ht1 : 4 * (d.sz - 1) < d.arr_size := ht
    rw [if_pos ht1] at e2
    refine ⟨e3 ht1 h0, by omega, ?_⟩
    show d1.sz = 0
    omega

theorem array_cap_1_reachable : DynamicArray.Reachable array_cap_1 := by
  have h0 : DynamicArray.Reachable (DynamicArray.new : DynamicArray Nat) :=
    DynamicArray.Reachable.new
  have h1 := DynamicArray.Reachable.push_back _ _ (Ptr.to 7) h0 rfl
  have h2 := DynamicArray.Reachable.remove _ _ 0 (Ptr.to 7) h1 rfl
  exact DynamicArray.Reachable.push_back _ _ (Ptr.to 8) h2 rfl

/-- C18 at the array of one element in a block of one slot, index 0: the storage is
released. -/
theorem C18_shrink_policy_witness :
    DynamicArray.Reachable array_cap_1 ∧ 0 < array_cap_1.size ∧
    ∃ res d1, array_cap_1.remove 0 = some (res, d1) ∧
      d1.arr_size = (if 4 * (array_cap_1.size - 1) < array_cap_1.arr_size
        then array_cap_1.arr_size / 2 else array_cap_1.arr_size) ∧
      (d1.arr_size ≠ array_cap_1.arr_size ↔
        4 * (array_cap_1.size - 1) < array_cap_1.arr_size) ∧
      (4 * (array_cap_1.size - 1) < array_cap_1.arr_size → array_cap_1.arr_size / 2 = 0 →
        d1.arr = none ∧ d1.arr_size = 0 ∧ d1.size = 0) :=
  ⟨array_cap_1_reachable, by decide,
    C18_shrink_policy array_cap_1 array_cap_1_reachable 0 (by decide)⟩

/-- C19: every reachable array is well formed, a well-formed array has its length at
most its capacity, and `push_back` returns and keeps it well formed. On a well-formed
array with `idx < size()`: `size() - 1` does not wrap; when `remove(idx)` shrinks to a
new block, that block has at least `size()` slots; `remove(idx)` returns, that is every
slot it reads or writes lies inside the block it indexes and that block is not
`nullptr`; when the shift loop runs at all, the storage it runs on is not `nullptr` and
has at least `size()` slots; and the array is left well formed. -/
theorem C19_remove_stays_inside_storage :
    (∀ d : DynamicArray α, DynamicArray.Reachable d → d.WellFormed) ∧
    (∀ d : DynamicArray α, d.WellFormed → d.size ≤ d.arr_size) ∧
    (∀ (d : DynamicArray α) (el : Ptr α), d.WellFormed →
      ∃ d1, d.push_back el = some d1 ∧ d1.WellFormed) ∧
    (∀ (d : DynamicArray α) (idx : Nat), d.WellFormed → idx < d.size →
      1 ≤ d.size ∧
      (4 * (d.size - 1) < d.arr_size → d.arr_size / 2 ≠ 0 → d.size ≤ d.arr_size / 2) ∧
      ∃ res d1, d.remove idx = some (res, d1) ∧
        (idx + 1 < d.size → d1.arr ≠ none ∧ d.size ≤ d1.arr_size) ∧
        d1.WellFormed) := by
  refine ⟨fun d hd => reachable_rep d hd, ?_, ?_, ?_⟩
  · intro d hd
    obtain ⟨l, hl⟩ := hd
    show d.sz ≤ d.arr_size
    have := hl.1
    have := hl.2.1
    omega
  · intro d el hd
    obtain ⟨l, hl⟩ := hd
    obtain ⟨d1, h1, h2⟩ := rep_push_back d l hl el
    exact ⟨d1, h1, _, h2⟩
  · intro d idx hd hidx
    obtain ⟨l, hl⟩ := hd
    have hsz : d.sz = l.length := hl.1
    have hcap : l.length ≤ d.arr_size := hl.2.1
    have hidx1 : idx < d.sz := hidx
    obtain ⟨d1, h1, h2⟩ := rep_remove d l hl idx (by omega)
    obtain ⟨e1, e2, _⟩ := remove_fields d d1 idx _ hidx1 h1
    refine ⟨by show 1 ≤ d.sz; omega, ?_, _, d1, h1, ?_, _, h2⟩
    · intro ht hn
      show d.sz ≤ d.arr_size / 2
      have ht1 : 4 * (d.sz - 1) < d.arr_size := ht
      omega
    · intro hrun
      have hrun1 : idx + 1 < d.sz := hrun
      have hcap1 : d.sz ≤ d1.arr_size := by
        by_cases ht : 4 * (d.sz - 1) < d.arr_size
        · rw [if_pos ht] at e2
          omega
        · rw [if_neg ht] at e2
          omega
      refine ⟨?_, hcap1⟩
      intro hnone
      have h3 := h2.2.2
      rw [hnone] at h3
      simp only [] at h3
      omega

end claims_capacity


section claims_rehash

/-- C11, the code at the failing input: after `add(1, 10)`, `add(2, 20)`, `add(3, 11)`,
`add(1, 3)`, `add(5, 50)` the map holds the bindings (2, 20), (3, 10), (3, 11), (5, 50)
and `get_keys()` is 2, 3, 3, 5; the grow rehash that `add(11, 99)` runs leaves the
bindings (5, 50), (2, 20), (11, 10); and after `add(11, 99)` `get_keys()` is 5, 2, 99. -/
theorem C11_grow_rehash_changes_bindings :
    (run_fresh [Call.add 1 10, Call.add 2 20, Call.add 3 11, Call.add 1 3, Call.add 5 50]).map
        (fun h => (chains h.keys, chains h.values))
      = some ([some [some (Ptr.to 2)],
               some [some (Ptr.to 3), some (Ptr.to 3), some (Ptr.to 5)]],
              [some [some (Ptr.to 20)],
               some [some (Ptr.to 10), some (Ptr.to 11), some (Ptr.to 50)]]) ∧
    (run_fresh [Call.add 1 10, Call.add 2 20, Call.add 3 11, Call.add 1 3, Call.add 5 50]).bind
        (fun h => (HashMap.rehash_grow cmp_nat hash_nat h).map
          (fun h1 => (chains h1.keys, chains h1.values)))
      = some ([some [], some [some (Ptr.to 5)], some [some (Ptr.to 2)], some [some (Ptr.to 11)]],
              [some [], some [some (Ptr.to 50)], some [some (Ptr.to 20)],
               some [some (Ptr.to 10)]]) ∧
    (run_fresh [Call.add 1 10, Call.add 2 20, Call.add 3 11, Call.add 1 3, Call.add 5 50]).bind
        (fun h => (HashMap.get_keys h).map DynamicArray.contents)
      = some [some (Ptr.to 2), some (Ptr.to 3), some (Ptr.to 3), some (Ptr.to 5)] ∧
    (run_fresh [Call.add 1 10, Call.add 2 20, Call.add 3 11, Call.add 1 3, Call.add 5 50,
                Call.add 11 99]).bind
        (fun h => (HashMap.get_keys h).map DynamicArray.contents)
      = some [some (Ptr.to 5), some (Ptr.to 2), some (Ptr.to 99)] :=
  ⟨rfl, rfl, rfl, rfl⟩

/-- C12 as stated fails: after `add("a")`, `add("b")`, `add("c")` on a fresh map with
`hash(k, n) = k[0] mod n` the bucket count is not 1. -/
theorem C12_three_keys_bucket_count_not_one :
    ¬ ((fresh_add_all [("a", "1"), ("b", "2"), ("c", "3")]).map (fun h => h.keys.size)
        = some 1) := by
  have e : (fresh_add_all [("a", "1"), ("b", "2"), ("c", "3")]).map (fun h => h.keys.size)
      = some 2 := rfl
  rw [e]
  decide

/-- C12 as amended: on a fresh map with `hash(k, n) = k[0] mod n`, after `add("a")` and
`add("b")` the bucket count is 1 with both keys in bucket 0 and `elements_num` 2; the
third call `add("c")` grows first, so after it the bucket count is 2, bucket 0 holds
"b", bucket 1 holds "a" and "c", `elements_num` is 3 and the lookup of each of the three
keys returns its value. -/
theorem C12_three_keys_scenario :
    (fresh_add_all [("a", "1"), ("b", "2")]).map
        (fun h => (h.keys.size, chains h.keys, h.elements_num))
      = some (1, [some [some (Ptr.to "a"), some (Ptr.to "b")]], 2) ∧
    (fresh_add_all [("a", "1"), ("b", "2"), ("c", "3")]).map
        (fun h => (h.keys.size, chains h.keys, chains h.values, h.elements_num))
      = some (2, [some [some (Ptr.to "b")], some [some (Ptr.to "a"), some (Ptr.to "c")]],
              [some [some (Ptr.to "2")], some [some (Ptr.to "1"), some (Ptr.to "3")]], 3) ∧
    lookup_str [("a", "1"), ("b", "2"), ("c", "3")] "a" = some (Ptr.to "1") ∧
    lookup_str [("a", "1"), ("b", "2"), ("c", "3")] "b" = some (Ptr.to "2") ∧
    lookup_str [("a", "1"), ("b", "2"), ("c", "3")] "c" = some (Ptr.to "3") :=
  ⟨rfl, rfl, rfl, rfl, rfl⟩

/-- C13, the code at the failing input: after `add(1, 10)`, `add(2, 20)`, `add(1, 2)` the
key chain of bucket 0 is 2, 2: two bindings whose keys compare equal; the value chain
10, 20 has the same length. -/
theorem C13_equal_keys_in_one_bucket :
    (run_fresh [Call.add 1 10, Call.add 2 20, Call.add 1 2]).map
        (fun h => (chains h.keys, chains h.values))
      = some ([some [some (Ptr.to 2), some (Ptr.to 2)]],
              [some [some (Ptr.to 10), some (Ptr.to 20)]]) ∧
    cmp_nat (Ptr.to 2) (Ptr.to 2) = 0 :=
  ⟨rfl, rfl⟩

/-- C14, the code at the failing input: after `add(1, 10)`, `add(2, 20)`, `add(3, 30)`,
`add(1, 4)` there are 2 buckets and bucket 1 holds the key 4, whose hash for 2 buckets
is 0. -/
theorem C14_key_outside_its_bucket :
    (run_fresh [Call.add 1 10, Call.add 2 20, Call.add 3 30, Call.add 1 4]).map
        (fun h => (h.keys.size, chains h.keys))
      = some (2, [some [some (Ptr.to 2)], some [some (Ptr.to 4), some (Ptr.to 3)]]) ∧
    hash_nat (Ptr.to 4) 2 = 0 :=
  ⟨rfl, rfl⟩

/-- C15, the code at the failing input: after `add(1, 10)`, `add(2, 20)`, `add(3, 30)`,
`add(1, 4)`, `add(5, 50)` there are 2 buckets, `elements_num` is 4 and the key 4 is
stored in bucket 1; `add(4, 40)` returns false and leaves 4 buckets. -/
theorem C15_add_grows_for_stored_key :
    (run_fresh [Call.add 1 10, Call.add 2 20, Call.add 3 30, Call.add 1 4, Call.add 5 50]).map
        (fun h => (h.keys.size, chains h.keys, h.elements_num))
      = some (2, [some [some (Ptr.to 2)],
                  some [some (Ptr.to 4), some (Ptr.to 3), some (Ptr.to 5)]], 4) ∧
    (run_fresh [Call.add 1 10, Call.add 2 20, Call.add 3 30, Call.add 1 4, Call.add 5 50]).bind
        (fun h => (HashMap.add cmp_nat hash_nat h (Ptr.to 4) (Ptr.to 40)).map
          (fun r => (r.1, r.2.keys.size)))
      = some (false, 4) :=
  ⟨rfl, rfl⟩

/-- C16, the code at the failing input: after `add(1, 10)`, `add(2, 20)`, `add(3, 30)`,
`remove(1)`, `remove(2)` there are 2 buckets, `elements_num` is 1, the key 3 is bound
and the member `size` is 1; `remove(3)` returns the key 3 and leaves 2 buckets. -/
theorem C16_remove_never_shrinks :
    (run_fresh [Call.add 1 10, Call.add 2 20, Call.add 3 30, Call.remove 1, Call.remove 2]).map
        (fun h => (h.keys.size, chains h.keys, h.elements_num, h.size))
      = some (2, [some [], some [some (Ptr.to 3)]], 1, 1) ∧
    (run_fresh [Call.add 1 10, Call.add 2 20, Call.add 3 30, Call.remove 1, Call.remove 2]).bind
        (fun h => (HashMap.remove cmp_nat hash_nat h (Ptr.to 3)).map
          (fun r => (r.1, r.2.keys.size, r.2.elements_num)))
      = some (Ptr.to 3, 2, 0) :=
  ⟨rfl, rfl⟩

/-- C20, the code at the failing input: after `add(1, 10)`, `add(1, 20)` the lookup of 1
returns `nullptr` on the map, while the association-list model on which the same calls
were replayed returns 20. -/
theorem C20_lookup_differs_from_model :
    lookup_after [Call.add 1 10, Call.add 1 20] 1 = some Ptr.null ∧
    assoc_lookup 1 (assoc_run [Call.add 1 10, Call.add 1 20] []) = Ptr.to 20 :=
  ⟨rfl, rfl⟩

end claims_rehash


end HashMapRepo
